import Mathlib

/-!
Verification development for the habitat-sim managed-object registry
(`src/esp/core/ManagedContainer.h`).

The C++ class template `ManagedContainer<T>` (together with its base
`ManagedContainerBase`) keeps a library of polymorphic "managed objects"
indexed by a string handle and a numeric ID.  We embed it shallowly:

* a managed object is a record of its observable fields (handle, numeric
  ID, class key, and an opaque payload standing for the family-specific
  data);
* `shared_ptr` instances become references (`Ref`, a natural number) into
  an explicit heap (`Heap`), so that aliasing, in-place mutation and
  "distinct instance" are expressible;
* the container state holds the handle-to-reference library, the
  ID-to-handle map, the reuse pool of freed IDs, the two protection sets
  and the set of class keys that have a registered copy constructor;
* fallible operations return `Option`; `none` models abnormal termination
  (the copy-dispatch miss, which in C++ invokes a null member-function
  pointer).

Functions of `ManagedContainerBase` whose bodies are not part of the file
under study (ID allocation, the raw map accessors, substring queries,
`deleteObjectInternal`) are modelled from the specification and marked as
such in their doc comments.
-/

/-- The sentinel ID used by the registry for "undefined / failed". -/
def ID_UNDEFINED : Int := -1

/-- Observable fields of an `AbstractManagedObject`: the string handle,
the numeric ID assigned by the registry, the class key used for copy
dispatch, and an opaque payload standing for all family-specific data. -/
structure ManagedObject where
  handle : String
  objId : Int
  classKey : String
  payload : Nat
deriving DecidableEq, Repr

/-- Default object value used for out-of-range heap reads (never reached
under the well-formedness invariant). -/
def nullMO : ManagedObject := ⟨"", ID_UNDEFINED, "", 0⟩

instance : Inhabited ManagedObject := ⟨nullMO⟩

/-- A reference to a managed object instance (models a `shared_ptr`
identity). -/
abbrev Ref := Nat

/-- The heap of managed-object instances: cell `r` holds the current value
of the instance referenced by `r`; fresh instances are appended. -/
structure Heap where
  cells : List ManagedObject
deriving DecidableEq, Repr

/-- Read the value of the instance referenced by `r`. -/
def readD (h : Heap) (r : Ref) : ManagedObject := h.cells.getD r nullMO

/-- Mutate the instance referenced by `r` in place. -/
def writeH (h : Heap) (r : Ref) (v : ManagedObject) : Heap := ⟨h.cells.set r v⟩

/-- Allocate a fresh instance holding value `v`; returns the new heap and
the fresh reference. -/
def allocH (h : Heap) (v : ManagedObject) : Heap × Ref :=
  (⟨h.cells ++ [v]⟩, h.cells.length)

theorem length_writeH (h : Heap) (r : Ref) (v : ManagedObject) :
    (writeH h r v).cells.length = h.cells.length := by
  simp [writeH]

theorem readD_writeH_self (h : Heap) (r : Ref) (v : ManagedObject)
    (hr : r < h.cells.length) : readD (writeH h r v) r = v := by
  simp [readD, writeH, List.getD, List.getElem?_set_self hr]

theorem readD_writeH_ne (h : Heap) (r s : Ref) (v : ManagedObject)
    (hne : r ≠ s) : readD (writeH h r v) s = readD h s := by
  simp [readD, writeH, List.getD, List.getElem?_set_ne hne]

theorem readD_append_lt (h : Heap) (v : ManagedObject) (r : Ref)
    (hr : r < h.cells.length) :
    readD ⟨h.cells ++ [v]⟩ r = readD h r := by
  simp [readD, List.getD, List.getElem?_append, hr]

theorem readD_append_self (h : Heap) (v : ManagedObject) :
    readD ⟨h.cells ++ [v]⟩ h.cells.length = v := by
  simp [readD, List.getD]

/-! ### Association lists

The C++ code uses `std::map`/`std::unordered_map`; we model each map as an
association list with unique keys (uniqueness is part of the reachability
invariant, proved below). -/

/-- First-match lookup. -/
def aLook {α β : Type} [DecidableEq α] : List (α × β) → α → Option β
  | [], _ => none
  | (k, v) :: rest, key => if k = key then some v else aLook rest key

/-- Overwrite the entry for `key` (map assignment `m[key] = val`). -/
def aSet {α β : Type} [DecidableEq α] : List (α × β) → α → β → List (α × β)
  | [], key, val => [(key, val)]
  | (k, v) :: rest, key, val =>
      if k = key then (key, val) :: rest else (k, v) :: aSet rest key val

/-- Erase the (first) entry for `key` (map `erase`). -/
def aErase {α β : Type} [DecidableEq α] : List (α × β) → α → List (α × β)
  | [], _ => []
  | (k, v) :: rest, key => if k = key then rest else (k, v) :: aErase rest key

/-- Insert only if the key is absent (`std::map::emplace` semantics). -/
def aEmplace {α β : Type} [DecidableEq α] (l : List (α × β)) (key : α)
    (val : β) : List (α × β) :=
  match aLook l key with
  | some _ => l
  | none => (key, val) :: l

/-- The key list of an association list. -/
def keysOf {α β : Type} (l : List (α × β)) : List α := l.map Prod.fst

/-! ### Substring containment (models `std::string::find` queries) -/

/-- `headMatch p l` is true when `p` matches the beginning of `l`. -/
def headMatch : List Char → List Char → Bool
  | [], _ => true
  | _ :: _, [] => false
  | a :: as, b :: bs => a == b && headMatch as bs

/-- `occursIn p l` is true when `p` occurs contiguously inside `l`. -/
def occursIn (p : List Char) : List Char → Bool
  | [] => headMatch p []
  | b :: bs => headMatch p (b :: bs) || occursIn p bs

/-- Whether the string `sub` occurs inside the string `s`. -/
def strContains (s sub : String) : Bool := occursIn sub.data s.data

/-! ### Container state -/

/-- The mutable state of one `ManagedContainer` instance together with its
`ManagedContainerBase` part: the handle-to-instance library
(`objectLibrary_`), the ID-to-handle index (`objectLibKeyByID_`), the pool
of freed IDs available for reuse, the two protection sets, the domain of
the copy-constructor map (`copyConstructorMap_`), and the default object. -/
structure ContainerState where
  objectLibrary : List (String × Ref)
  objectLibKeyByID : List (Int × String)
  availableObjectIDs : List Int
  undeletableObjectNames : List String
  userLockedObjectNames : List String
  copyCtorKeys : List String
  defaultObj : Option Ref
deriving DecidableEq, Repr

/-- The state of a freshly constructed container: every map empty. -/
def initState (ctorKeys : List String) : ContainerState :=
  ⟨[], [], [], [], [], ctorKeys, none⟩

/-- The largest ID present in the ID-to-handle map, or `ID_UNDEFINED`
when the map is empty. -/
def maxUsedID (st : ContainerState) : Int :=
  st.objectLibKeyByID.foldr (fun p m => max p.1 m) ID_UNDEFINED

/-- The minimum of a list of IDs, when the list is nonempty. -/
def minOfList : List Int → Option Int
  | [] => none
  | a :: as =>
      match minOfList as with
      | none => some a
      | some m => some (min a m)

/-- Modelled from the spec: `ManagedContainerBase::getUnusedObjectID` is
not part of the file under study.  Per the spec (section 4.1), allocation
returns the smallest free ID from the reuse pool, or maximum-used-plus-one
when the pool is empty. -/
def getUnusedObjectID (st : ContainerState) : ContainerState × Int :=
  match minOfList st.availableObjectIDs with
  | some m => ({ st with availableObjectIDs := st.availableObjectIDs.erase m }, m)
  | none => (st, maxUsedID st + 1)

/-- Modelled from the spec: `ManagedContainerBase::getObjectLibHasHandle`
is not part of the file under study; it reports whether the handle is a
key of the object library. -/
def getObjectLibHasHandle (st : ContainerState) (objectHandle : String) : Bool :=
  (aLook st.objectLibrary objectHandle).isSome

/-- Modelled from the spec: `ManagedContainerBase::getObjectInternal`
returns the instance stored in the object library under the handle. -/
def getObjectInternal (st : ContainerState) (objectHandle : String) : Option Ref :=
  aLook st.objectLibrary objectHandle

/-- Modelled from the spec: `ManagedContainerBase::checkExistsWithMessage`
reports (with a log message) whether the handle exists in the library. -/
def checkExists (st : ContainerState) (objectHandle : String) : Bool :=
  (aLook st.objectLibrary objectHandle).isSome

/-- Modelled from the spec: `ManagedContainerBase::getObjectHandleByID`
resolves an ID to its handle, yielding the empty string when the ID is not
indexed. -/
def getObjectHandleByID (st : ContainerState) (objectID : Int) : String :=
  (aLook st.objectLibKeyByID objectID).getD ""

/-- Modelled from the spec: `ManagedContainerBase::setObjectInternal`
stores the instance in the object library under the handle (map
assignment, overwriting any previous entry). -/
def setObjectInternal (st : ContainerState) (r : Ref) (objectHandle : String) :
    ContainerState :=
  { st with objectLibrary := aSet st.objectLibrary objectHandle r }

/-- `ManagedContainer::getObjectIDByHandleOrNew` (source lines 486-499):
if the library has the handle, return the ID stored inside the object
under that handle; otherwise, when `getNext` is set, allocate via
`getUnusedObjectID`, else fail with `ID_UNDEFINED`. -/
def getObjectIDByHandleOrNew (h : Heap) (st : ContainerState)
    (objectHandle : String) (getNext : Bool) : ContainerState × Int :=
  match getObjectInternal st objectHandle with
  | some r => (st, (readD h r).objId)
  | none => if getNext then getUnusedObjectID st else (st, ID_UNDEFINED)

/-- `ManagedContainer::copyObject` (source lines 542-545): dispatch on the
class key of the object through the copy-constructor map; a present key
produces a fresh instance holding the same value; a missing key makes the
C++ code invoke a null member-function pointer, modelled as `none`
(abnormal termination). -/
def copyObject (h : Heap) (st : ContainerState) (r : Ref) : Option (Heap × Ref) :=
  if st.copyCtorKeys.contains (readD h r).classKey then
    some (allocH h (readD h r))
  else none

/-- `ManagedContainer::addObjectToLibrary` (source lines 574-589): set the
handle on the passed object, resolve (or allocate) its ID, set the ID on
the object, store a fresh copy in the library under the handle, and record
the ID-to-handle index entry with `emplace` semantics. -/
def addObjectToLibrary (h : Heap) (st : ContainerState) (r : Ref)
    (objectHandle : String) : Option (Heap × ContainerState × Int) :=
  let h1 := writeH h r { readD h r with handle := objectHandle }
  let p := getObjectIDByHandleOrNew h1 st objectHandle true
  let h2 := writeH h1 r { readD h1 r with objId := p.2 }
  match copyObject h2 p.1 r with
  | none => none
  | some (h3, copyRef) =>
      some (h3,
        { p.1 with
          objectLibrary := aSet p.1.objectLibrary objectHandle copyRef,
          objectLibKeyByID := aEmplace p.1.objectLibKeyByID p.2 objectHandle },
        p.2)

/-- Modelled from the spec: `registerObjectFinalize` is pure virtual in
the file under study; per the spec (section 4.3 step 3), the subclass may
reject registration unless `forceRegistration` is set, and on acceptance
performs `addObjectToLibrary`.  The subclass decision is the `accept`
parameter. -/
def registerObjectFinalize (h : Heap) (st : ContainerState) (r : Ref)
    (objectHandle : String) (forceRegistration accept : Bool) :
    Option (Heap × ContainerState × Int) :=
  if accept || forceRegistration then addObjectToLibrary h st r objectHandle
  else some (h, st, ID_UNDEFINED)

/-- `ManagedContainer::registerObject` (source lines 164-185): reject a
null object; prefer a non-empty explicit handle argument, else the
object's own handle; reject when both are empty; otherwise delegate to
`registerObjectFinalize`. -/
def registerObject (h : Heap) (st : ContainerState) (obj : Option Ref)
    (objectHandle : String) (forceRegistration accept : Bool) :
    Option (Heap × ContainerState × Int) :=
  match obj with
  | none => some (h, st, ID_UNDEFINED)
  | some r =>
      if objectHandle ≠ "" then
        registerObjectFinalize h st r objectHandle forceRegistration accept
      else
        let handleToSet := (readD h r).handle
        if handleToSet = "" then some (h, st, ID_UNDEFINED)
        else registerObjectFinalize h st r handleToSet forceRegistration accept

/-- `ManagedContainer::getObjectByHandle` (source lines 243-250): returns
the internal stored instance, or null when the handle does not exist. -/
def getObjectByHandle (st : ContainerState) (objectHandle : String) : Option Ref :=
  if checkExists st objectHandle then getObjectInternal st objectHandle else none

/-- `ManagedContainer::getObjectByID` (source lines 224-231): resolve the
ID to a handle, then as `getObjectByHandle`. -/
def getObjectByID (st : ContainerState) (managedObjectID : Int) : Option Ref :=
  getObjectByHandle st (getObjectHandleByID st managedObjectID)

/-- `ManagedContainer::getObjectCopyByHandle` (source lines 350-357):
null when the handle does not exist; otherwise a fresh copy of the stored
instance via `copyObject`.  The outer `Option` is abnormal termination of
the copy dispatch; the inner one is the null result. -/
def getObjectCopyByHandle (h : Heap) (st : ContainerState)
    (objectHandle : String) : Option (Heap × Option Ref) :=
  if checkExists st objectHandle then
    match getObjectInternal st objectHandle with
    | none => some (h, none)
    | some r =>
        match copyObject h st r with
        | none => none
        | some (h2, rc) => some (h2, some rc)
  else some (h, none)

/-- `ManagedContainer::getObjectCopyByID` (source lines 332-340): resolve
the ID to a handle, then as `getObjectCopyByHandle`. -/
def getObjectCopyByID (h : Heap) (st : ContainerState) (managedObjectID : Int) :
    Option (Heap × Option Ref) :=
  getObjectCopyByHandle h st (getObjectHandleByID st managedObjectID)

/-- `ManagedContainer::postCreateRegister` (source lines 423-430): when
registration is not requested, return the object as built; otherwise
register it under its own handle and return the passed object on success,
null on registration failure. -/
def postCreateRegister (h : Heap) (st : ContainerState) (r : Ref)
    (doRegistration accept : Bool) : Option (Heap × ContainerState × Option Ref) :=
  if !doRegistration then some (h, st, some r)
  else
    match registerObject h st (some r) (readD h r).handle false accept with
    | none => none
    | some (h2, st2, objID) =>
        some (h2, st2, if objID = ID_UNDEFINED then none else some r)

/-- `ManagedContainer::createDefaultObject` (source lines 71-79): build a
new object via the pure-virtual `initNewObjectInternal` — modelled from
the spec as the family-constructor collaborator `build`, which may fail —
return null on build failure, otherwise hand off to `postCreateRegister`. -/
def createDefaultObject (h : Heap) (st : ContainerState) (objectName : String)
    (registerObj : Bool) (build : String → Option ManagedObject) (accept : Bool) :
    Option (Heap × ContainerState × Option Ref) :=
  match build objectName with
  | none => some (h, st, none)
  | some v =>
      let hr := allocH h v
      postCreateRegister hr.1 st hr.2 registerObj accept

/-- `ManagedContainer::createObjectFromJSONFile` (source lines 92-107):
return null when the document cannot be loaded (`verifyLoadDocument`,
modelled from the spec as the boolean `loadOk`); otherwise build the
object from the parsed document (`buildManagedObjectFromDoc`, modelled
from the spec as `docBuild`, which per its contract always yields an
object) and hand off to `postCreateRegister`. -/
def createObjectFromJSONFile (h : Heap) (st : ContainerState)
    (filename : String) (registerObj : Bool) (loadOk : Bool)
    (docBuild : String → ManagedObject) (accept : Bool) :
    Option (Heap × ContainerState × Option Ref) :=
  if !loadOk then some (h, st, none)
  else
    let hr := allocH h (docBuild filename)
    postCreateRegister hr.1 st hr.2 registerObj accept

/-- Modelled from the spec: `ManagedContainerBase::deleteObjectInternal`
is not part of the file under study; per the spec (section 4.6) it purges
the library entry and the ID-to-handle entry and returns the ID to the
reuse pool. -/
def deleteObjectInternal (st : ContainerState) (objectID : Int)
    (objectHandle : String) : ContainerState :=
  { st with
    objectLibrary := aErase st.objectLibrary objectHandle,
    objectLibKeyByID := aErase st.objectLibKeyByID objectID,
    availableObjectIDs := objectID :: st.availableObjectIDs }

/-- `ManagedContainer::removeObjectInternal` (source lines 640-666):
no-op returning null when the handle does not exist or is protected
(undeletable or user-locked); otherwise delete the entry and return the
removed instance. -/
def removeObjectInternal (h : Heap) (st : ContainerState)
    (objectHandle : String) : Heap × ContainerState × Option Ref :=
  if !checkExists st objectHandle then (h, st, none)
  else if st.undeletableObjectNames.contains objectHandle
       || st.userLockedObjectNames.contains objectHandle then (h, st, none)
  else
    match getObjectInternal st objectHandle with
    | none => (h, st, none)
    | some r => (h, deleteObjectInternal st (readD h r).objId objectHandle, some r)

/-- `ManagedContainer::removeObjectByHandle` (source lines 278-281). -/
def removeObjectByHandle (h : Heap) (st : ContainerState)
    (objectHandle : String) : Heap × ContainerState × Option Ref :=
  removeObjectInternal h st objectHandle

/-- `ManagedContainer::removeObjectByID` (source lines 260-268): resolve
the ID to a handle, check existence, then as `removeObjectByHandle`. -/
def removeObjectByID (h : Heap) (st : ContainerState) (objectID : Int) :
    Heap × ContainerState × Option Ref :=
  let objectHandle := getObjectHandleByID st objectID
  if !checkExists st objectHandle then (h, st, none)
  else removeObjectInternal h st objectHandle

/-- Modelled from the spec:
`ManagedContainerBase::getObjectHandlesBySubstring` is not part of the
file under study; per the spec (section 4.1) it returns all registered
handles that contain (or, when `contains` is false, do not contain) the
substring, the empty substring with `contains = true` matching every
handle. -/
def getObjectHandlesBySubstring (st : ContainerState) (subStr : String)
    (contains : Bool) : List String :=
  (keysOf st.objectLibrary).filter (fun hd => strContains hd subStr == contains)

/-- The removal loop of `removeObjectsBySubstring`: apply
`removeObjectInternal` to each candidate handle, collecting the non-null
results. -/
def removeLoop (h : Heap) (st : ContainerState) :
    List String → Heap × ContainerState × List Ref
  | [] => (h, st, [])
  | hd :: rest =>
      let x := removeObjectInternal h st hd
      let y := removeLoop x.1 x.2.1 rest
      match x.2.2 with
      | some r => (y.1, y.2.1, r :: y.2.2)
      | none => (y.1, y.2.1, y.2.2)

/-- `ManagedContainer::removeObjectsBySubstring` (source lines 622-638):
compute the candidate handles matching the query, then remove each,
returning the instances actually removed. -/
def removeObjectsBySubstring (h : Heap) (st : ContainerState)
    (subStr : String) (contains : Bool) : Heap × ContainerState × List Ref :=
  removeLoop h st (getObjectHandlesBySubstring st subStr contains)

/-- `ManagedContainer::removeAllObjects` (source lines 289-291): the
defaulted call `removeObjectsBySubstring()`. -/
def removeAllObjects (h : Heap) (st : ContainerState) :
    Heap × ContainerState × List Ref :=
  removeObjectsBySubstring h st "" true

/-! ### Operation sequences

Reachable states: any interleaving of register, remove and lookup calls,
starting from a freshly constructed container.  A `register` call passes a
fresh caller-owned instance (allocated into the heap before the call), as
a C++ caller does when registering an object it built. -/

/-- One external call to the container. -/
inductive Op where
  | register (obj : Option ManagedObject) (objectHandle : String)
      (forceRegistration accept : Bool)
  | removeByHandle (objectHandle : String)
  | removeByID (objectID : Int)
  | removeBySub (subStr : String) (contains : Bool)
  | getCopy (objectHandle : String)
  | look (objectHandle : String)

/-- Execute one call; `none` is abnormal termination (copy-dispatch miss). -/
def runOp (h : Heap) (st : ContainerState) : Op → Option (Heap × ContainerState)
  | .register obj hdl force accept =>
      match obj with
      | none => (registerObject h st none hdl force accept).map (fun x => (x.1, x.2.1))
      | some v =>
          let hr := allocH h v
          (registerObject hr.1 st (some hr.2) hdl force accept).map
            (fun x => (x.1, x.2.1))
  | .removeByHandle hdl =>
      let x := removeObjectByHandle h st hdl
      some (x.1, x.2.1)
  | .removeByID i =>
      let x := removeObjectByID h st i
      some (x.1, x.2.1)
  | .removeBySub s c =>
      let x := removeObjectsBySubstring h st s c
      some (x.1, x.2.1)
  | .getCopy hdl => (getObjectCopyByHandle h st hdl).map (fun x => (x.1, st))
  | .look _ => some (h, st)

/-- Execute a sequence of calls. -/
def runOps (h : Heap) (st : ContainerState) : List Op → Option (Heap × ContainerState)
  | [] => some (h, st)
  | op :: rest =>
      match runOp h st op with
      | none => none
      | some x => runOps x.1 x.2 rest

/-! ### Association-list lemmas -/

theorem aLook_aSet_self {α β : Type} [DecidableEq α] (l : List (α × β))
    (k : α) (v : β) : aLook (aSet l k v) k = some v := by
  induction l with
  | nil => simp [aSet, aLook]
  | cons p rest ih =>
      obtain ⟨pk, pv⟩ := p
      by_cases hpk : pk = k
      · simp [aSet, hpk, aLook]
      · simp [aSet, hpk, aLook, ih]

theorem aLook_aSet_ne {α β : Type} [DecidableEq α] (l : List (α × β))
    (k k' : α) (v : β) (hne : k' ≠ k) :
    aLook (aSet l k v) k' = aLook l k' := by
  induction l with
  | nil => simp [aSet, aLook, Ne.symm hne]
  | cons p rest ih =>
      obtain ⟨pk, pv⟩ := p
      by_cases hpk : pk = k
      · subst hpk
        simp [aSet, aLook, Ne.symm hne]
      · by_cases hpk' : pk = k'
        · simp [aSet, hpk, aLook, hpk', hne, Ne.symm hne]
        · simp [aSet, hpk, aLook, hpk', ih]

theorem mem_keysOf_aSet {α β : Type} [DecidableEq α] (l : List (α × β))
    (k x : α) (v : β) :
    x ∈ keysOf (aSet l k v) → x = k ∨ x ∈ keysOf l := by
  induction l with
  | nil => intro hx; simpa [aSet, keysOf] using hx
  | cons p rest ih =>
      obtain ⟨pk, pv⟩ := p
      intro hx
      by_cases hpk : pk = k
      · subst hpk
        simpa [aSet, keysOf] using hx
      · have hx2 : x = pk ∨ x ∈ keysOf (aSet rest k v) := by
          simpa [aSet, hpk, keysOf] using hx
        rcases hx2 with hx2 | hx2
        · exact Or.inr (by simp [keysOf, hx2])
        · rcases ih hx2 with h1 | h1
          · exact Or.inl h1
          · refine Or.inr ?_
            simp only [keysOf, List.map_cons, List.mem_cons]
            exact Or.inr h1

theorem keysOf_aSet_nodup {α β : Type} [DecidableEq α] (l : List (α × β))
    (k : α) (v : β) (hl : (keysOf l).Nodup) :
    (keysOf (aSet l k v)).Nodup := by
  induction l with
  | nil => simp [aSet, keysOf]
  | cons p rest ih =>
      obtain ⟨pk, pv⟩ := p
      have hl1 : pk ∉ keysOf rest := by
        have h0 := hl
        simp only [keysOf, List.map_cons, List.nodup_cons] at h0
        exact h0.1
      have hl2 : (keysOf rest).Nodup := by
        have h0 := hl
        simp only [keysOf, List.map_cons, List.nodup_cons] at h0
        exact h0.2
      by_cases hpk : pk = k
      · subst hpk
        have he : aSet ((pk, pv) :: rest) pk v = (pk, v) :: rest := by
          simp [aSet]
        rw [he]
        simp only [keysOf, List.map_cons, List.nodup_cons]
        exact ⟨hl1, hl2⟩
      · have he : aSet ((pk, pv) :: rest) k v = (pk, pv) :: aSet rest k v := by
          simp [aSet, hpk]
        rw [he]
        simp only [keysOf, List.map_cons, List.nodup_cons]
        refine ⟨fun hmem => ?_, ih hl2⟩
        rcases mem_keysOf_aSet rest k pk v hmem with h1 | h1
        · exact hpk h1
        · exact hl1 h1

theorem aLook_eq_none_of_not_mem {α β : Type} [DecidableEq α]
    (l : List (α × β)) (k : α) :
    k ∉ keysOf l → aLook l k = none := by
  induction l with
  | nil => intro _; simp [aLook]
  | cons p rest ih =>
      obtain ⟨pk, pv⟩ := p
      intro hk
      simp only [keysOf, List.map_cons, List.mem_cons, not_or] at hk
      have h1 : ¬pk = k := fun h2 => hk.1 h2.symm
      simp [aLook, h1, ih hk.2]

theorem not_mem_keysOf_of_aLook_none {α β : Type} [DecidableEq α]
    (l : List (α × β)) (k : α) :
    aLook l k = none → k ∉ keysOf l := by
  induction l with
  | nil => intro _; simp [keysOf]
  | cons p rest ih =>
      obtain ⟨pk, pv⟩ := p
      intro hk
      by_cases hpk : pk = k
      · simp [aLook, hpk] at hk
      · have hrest : aLook rest k = none := by simpa [aLook, hpk] using hk
        simp only [keysOf, List.map_cons, List.mem_cons, not_or]
        exact ⟨fun h1 => hpk h1.symm, ih hrest⟩

theorem mem_keysOf_of_aLook {α β : Type} [DecidableEq α]
    (l : List (α × β)) (k : α) (v : β) (hk : aLook l k = some v) :
    k ∈ keysOf l := by
  by_contra hmem
  rw [aLook_eq_none_of_not_mem l k hmem] at hk
  exact Option.noConfusion hk

theorem aErase_sublist {α β : Type} [DecidableEq α] (l : List (α × β))
    (k : α) : (aErase l k).Sublist l := by
  induction l with
  | nil => simp [aErase]
  | cons p rest ih =>
      obtain ⟨pk, pv⟩ := p
      by_cases hpk : pk = k
      · simp only [aErase, if_pos hpk]
        exact List.sublist_cons_self (pk, pv) rest
      · simpa [aErase, hpk] using List.Sublist.cons₂ (pk, pv) ih

theorem keysOf_aErase_nodup {α β : Type} [DecidableEq α] (l : List (α × β))
    (k : α) (hl : (keysOf l).Nodup) : (keysOf (aErase l k)).Nodup :=
  List.Nodup.sublist (List.Sublist.map Prod.fst (aErase_sublist l k)) hl

theorem aLook_aErase_ne {α β : Type} [DecidableEq α] (l : List (α × β))
    (k k' : α) (hne : k' ≠ k) : aLook (aErase l k) k' = aLook l k' := by
  induction l with
  | nil => simp [aErase]
  | cons p rest ih =>
      obtain ⟨pk, pv⟩ := p
      by_cases hpk : pk = k
      · subst hpk
        simp [aErase, aLook, Ne.symm hne]
      · by_cases hpk' : pk = k'
        · simp [aErase, hpk, aLook, hpk', hne, Ne.symm hne]
        · simp [aErase, hpk, aLook, hpk', ih]

theorem aLook_aErase_self {α β : Type} [DecidableEq α] (l : List (α × β))
    (k : α) (hl : (keysOf l).Nodup) : aLook (aErase l k) k = none := by
  induction l with
  | nil => simp [aErase, aLook]
  | cons p rest ih =>
      obtain ⟨pk, pv⟩ := p
      have hl1 : pk ∉ keysOf rest := by
        have h0 := hl
        simp only [keysOf, List.map_cons, List.nodup_cons] at h0
        exact h0.1
      have hl2 : (keysOf rest).Nodup := by
        have h0 := hl
        simp only [keysOf, List.map_cons, List.nodup_cons] at h0
        exact h0.2
      by_cases hpk : pk = k
      · subst hpk
        have he : aErase ((pk, pv) :: rest) pk = rest := by simp [aErase]
        rw [he]
        exact aLook_eq_none_of_not_mem rest pk hl1
      · have he : aErase ((pk, pv) :: rest) k = (pk, pv) :: aErase rest k := by
          simp [aErase, hpk]
        rw [he]
        simp [aLook, hpk, ih hl2]

theorem aEmplace_of_some {α β : Type} [DecidableEq α] (l : List (α × β))
    (k : α) (v w : β) (hk : aLook l k = some w) : aEmplace l k v = l := by
  simp [aEmplace, hk]

theorem aLook_aEmplace_self {α β : Type} [DecidableEq α] (l : List (α × β))
    (k : α) (v : β) (hk : aLook l k = none) :
    aLook (aEmplace l k v) k = some v := by
  simp [aEmplace, hk, aLook]

theorem aLook_aEmplace_ne {α β : Type} [DecidableEq α] (l : List (α × β))
    (k k' : α) (v : β) (hne : k' ≠ k) :
    aLook (aEmplace l k v) k' = aLook l k' := by
  cases hk : aLook l k with
  | some w => simp [aEmplace, hk]
  | none => simp [aEmplace, hk, aLook, Ne.symm hne]

theorem keysOf_aEmplace_nodup {α β : Type} [DecidableEq α] (l : List (α × β))
    (k : α) (v : β) (hl : (keysOf l).Nodup) :
    (keysOf (aEmplace l k v)).Nodup := by
  cases hk : aLook l k with
  | some w => simpa [aEmplace, hk] using hl
  | none =>
      have he : aEmplace l k v = (k, v) :: l := by simp [aEmplace, hk]
      rw [he]
      simp only [keysOf, List.map_cons, List.nodup_cons]
      exact ⟨not_mem_keysOf_of_aLook_none l k hk, hl⟩

/-! ### ID-allocation lemmas -/

theorem minOfList_eq_none (l : List Int) : minOfList l = none ↔ l = [] := by
  cases l with
  | nil => simp [minOfList]
  | cons a as =>
      simp only [minOfList]
      cases minOfList as <;> simp

theorem minOfList_mem (l : List Int) (m : Int) (hm : minOfList l = some m) :
    m ∈ l := by
  induction l generalizing m with
  | nil => simp [minOfList] at hm
  | cons a as ih =>
      simp only [minOfList] at hm
      cases has : minOfList as with
      | none =>
          rw [has] at hm
          simp only [Option.some.injEq] at hm
          simp [← hm]
      | some m' =>
          rw [has] at hm
          simp only [Option.some.injEq] at hm
          rcases min_cases a m' with ⟨hmin, _⟩ | ⟨hmin, _⟩
          · rw [hmin] at hm
            simp [← hm]
          · rw [hmin] at hm
            subst hm
            exact List.mem_cons_of_mem a (ih m' has)

theorem minOfList_le (l : List Int) (m : Int) (hm : minOfList l = some m) :
    ∀ x ∈ l, m ≤ x := by
  induction l generalizing m with
  | nil => simp
  | cons a as ih =>
      intro x hx
      simp only [minOfList] at hm
      cases has : minOfList as with
      | none =>
          rw [has] at hm
          simp only [Option.some.injEq] at hm
          rw [minOfList_eq_none] at has
          subst has
          simp only [List.mem_singleton] at hx
          omega
      | some m' =>
          rw [has] at hm
          simp only [Option.some.injEq] at hm
          subst hm
          rcases List.mem_cons.mp hx with hx | hx
          · rw [hx]
            exact min_le_left a m'
          · exact le_trans (min_le_right a m') (ih m' has x hx)

theorem le_foldrMaxKey {β : Type} (l : List (Int × β)) (init : Int) :
    init ≤ l.foldr (fun p m => max p.1 m) init := by
  induction l with
  | nil => simp
  | cons p rest ih => exact le_trans ih (le_max_right p.1 _)

theorem aLook_le_foldrMaxKey {β : Type} (l : List (Int × β)) (k : Int)
    (v : β) (init : Int) (hk : aLook l k = some v) :
    k ≤ l.foldr (fun p m => max p.1 m) init := by
  induction l with
  | nil => simp [aLook] at hk
  | cons p rest ih =>
      obtain ⟨pk, pv⟩ := p
      simp only [aLook] at hk
      by_cases hpk : pk = k
      · subst hpk
        exact le_max_left pk _
      · simp only [hpk, if_false] at hk
        exact le_trans (ih hk) (le_max_right pk _)

theorem aLook_maxUsedID_succ_none (st : ContainerState) :
    aLook st.objectLibKeyByID (maxUsedID st + 1) = none := by
  cases hk : aLook st.objectLibKeyByID (maxUsedID st + 1) with
  | none => rfl
  | some v =>
      have h1 := aLook_le_foldrMaxKey st.objectLibKeyByID _ v ID_UNDEFINED hk
      rw [show st.objectLibKeyByID.foldr (fun p m => max p.1 m) ID_UNDEFINED
            = maxUsedID st from rfl] at h1
      omega

theorem maxUsedID_nonneg_succ (st : ContainerState) : 0 ≤ maxUsedID st + 1 := by
  have h1 := le_foldrMaxKey st.objectLibKeyByID ID_UNDEFINED
  rw [show st.objectLibKeyByID.foldr (fun p m => max p.1 m) ID_UNDEFINED
        = maxUsedID st from rfl] at h1
  simp only [ID_UNDEFINED] at h1
  omega

/-! ### The reachability invariant -/

/-- The three-way consistency invariant of the registry: unique handles,
unique IDs, valid references, agreement between the ID stored inside each
object and the ID-to-handle index, and a reuse pool disjoint from the live
IDs with no negative IDs anywhere. -/
structure RegInv (h : Heap) (st : ContainerState) : Prop where
  libNodup : (keysOf st.objectLibrary).Nodup
  idNodup : (keysOf st.objectLibKeyByID).Nodup
  refsValid : ∀ k r, aLook st.objectLibrary k = some r → r < h.cells.length
  agree : ∀ k r, aLook st.objectLibrary k = some r →
    aLook st.objectLibKeyByID (readD h r).objId = some k
  poolNodup : st.availableObjectIDs.Nodup
  poolFree : ∀ i ∈ st.availableObjectIDs, aLook st.objectLibKeyByID i = none
  poolNonneg : ∀ i ∈ st.availableObjectIDs, 0 ≤ i
  idsNonneg : ∀ i k, aLook st.objectLibKeyByID i = some k → 0 ≤ i

theorem RegInv_init (ctorKeys : List String) (h : Heap) :
    RegInv h (initState ctorKeys) := by
  constructor <;> simp [initState, keysOf, aLook]

/-- Growing the heap preserves the invariant. -/
theorem RegInv_extend (h : Heap) (st : ContainerState) (v : ManagedObject)
    (hInv : RegInv h st) : RegInv ⟨h.cells ++ [v]⟩ st := by
  constructor
  · exact hInv.libNodup
  · exact hInv.idNodup
  · intro k r hk
    have h1 := hInv.refsValid k r hk
    show r < (h.cells ++ [v]).length
    rw [List.length_append]
    exact lt_of_lt_of_le h1 (Nat.le_add_right _ _)
  · intro k r hk
    rw [readD_append_lt h v r (hInv.refsValid k r hk)]
    exact hInv.agree k r hk
  · exact hInv.poolNodup
  · exact hInv.poolFree
  · exact hInv.poolNonneg
  · exact hInv.idsNonneg

/-- Behaviour of the spec-modelled ID allocator under the pool invariants:
the returned ID is not a live ID-map key, is non-negative, and the
remaining pool stays well behaved and avoids the returned ID. -/
theorem getUnusedObjectID_spec (st st1 : ContainerState) (i : Int)
    (hnodup : st.availableObjectIDs.Nodup)
    (hfree : ∀ j ∈ st.availableObjectIDs, aLook st.objectLibKeyByID j = none)
    (hnn : ∀ j ∈ st.availableObjectIDs, 0 ≤ j)
    (heq : getUnusedObjectID st = (st1, i)) :
    st1.objectLibrary = st.objectLibrary ∧
    st1.objectLibKeyByID = st.objectLibKeyByID ∧
    st1.undeletableObjectNames = st.undeletableObjectNames ∧
    st1.userLockedObjectNames = st.userLockedObjectNames ∧
    st1.copyCtorKeys = st.copyCtorKeys ∧
    st1.defaultObj = st.defaultObj ∧
    aLook st.objectLibKeyByID i = none ∧
    0 ≤ i ∧
    st1.availableObjectIDs.Nodup ∧
    (∀ j ∈ st1.availableObjectIDs,
      j ≠ i ∧ aLook st.objectLibKeyByID j = none ∧ 0 ≤ j) := by
  unfold getUnusedObjectID at heq
  cases hmin : minOfList st.availableObjectIDs with
  | none =>
      rw [hmin] at heq
      have hpool : st.availableObjectIDs = [] := (minOfList_eq_none _).mp hmin
      simp only [Prod.mk.injEq] at heq
      obtain ⟨he1, he2⟩ := heq
      subst he1
      subst he2
      refine ⟨rfl, rfl, rfl, rfl, rfl, rfl,
        aLook_maxUsedID_succ_none st, maxUsedID_nonneg_succ st, ?_, ?_⟩
      · simp [hpool]
      · intro j hj
        rw [hpool] at hj
        simp at hj
  | some m =>
      rw [hmin] at heq
      simp only [Prod.mk.injEq] at heq
      obtain ⟨he1, he2⟩ := heq
      subst he2
      subst he1
      have hmem : m ∈ st.availableObjectIDs := minOfList_mem _ m hmin
      refine ⟨rfl, rfl, rfl, rfl, rfl, rfl, hfree m hmem, hnn m hmem,
        List.Nodup.erase m hnodup, ?_⟩
      intro j hj
      have hj2 : j ≠ m ∧ j ∈ st.availableObjectIDs :=
        (List.Nodup.mem_erase_iff hnodup).mp hj
      exact ⟨hj2.1, hfree j hj2.2, hnn j hj2.2⟩

/-- Behaviour of `getObjectIDByHandleOrNew` with `getNext = true` under
the invariant: the resulting ID is either the live ID already indexed for
the handle or a completely fresh one, the `emplace` of the ID-to-handle
pair makes the pair visible, and the pool stays well behaved.  `h1` is the
heap after the caller-side handle write, assumed to agree with `h` on the
instances stored in the library. -/
theorem getObjectIDByHandleOrNew_spec (h h1 : Heap) (st st1 : ContainerState)
    (hdl : String) (oid : Int) (hInv : RegInv h st)
    (hread : ∀ rh, aLook st.objectLibrary hdl = some rh → readD h1 rh = readD h rh)
    (heq : getObjectIDByHandleOrNew h1 st hdl true = (st1, oid)) :
    st1.objectLibrary = st.objectLibrary ∧
    st1.objectLibKeyByID = st.objectLibKeyByID ∧
    st1.undeletableObjectNames = st.undeletableObjectNames ∧
    st1.userLockedObjectNames = st.userLockedObjectNames ∧
    st1.copyCtorKeys = st.copyCtorKeys ∧
    st1.defaultObj = st.defaultObj ∧
    (aLook st.objectLibKeyByID oid = some hdl ∨
      aLook st.objectLibKeyByID oid = none) ∧
    aLook (aEmplace st.objectLibKeyByID oid hdl) oid = some hdl ∧
    0 ≤ oid ∧
    st1.availableObjectIDs.Nodup ∧
    (∀ j ∈ st1.availableObjectIDs,
      j ≠ oid ∧ aLook st.objectLibKeyByID j = none ∧ 0 ≤ j) := by
  unfold getObjectIDByHandleOrNew getObjectInternal at heq
  cases hlib : aLook st.objectLibrary hdl with
  | some rh =>
      rw [hlib] at heq
      simp only [Prod.mk.injEq] at heq
      obtain ⟨he1, he2⟩ := heq
      subst he1
      have hoid : oid = (readD h rh).objId := by rw [← he2, hread rh hlib]
      have hagree := hInv.agree hdl rh hlib
      rw [← hoid] at hagree
      refine ⟨rfl, rfl, rfl, rfl, rfl, rfl, Or.inl hagree, ?_, ?_,
        hInv.poolNodup, ?_⟩
      · rw [aEmplace_of_some _ _ hdl hdl hagree]
        exact hagree
      · exact hInv.idsNonneg oid hdl hagree
      · intro j hj
        have hfree := hInv.poolFree j hj
        refine ⟨?_, hfree, hInv.poolNonneg j hj⟩
        intro hje
        rw [hje, hagree] at hfree
        exact Option.noConfusion hfree
  | none =>
      rw [hlib] at heq
      simp only [if_true] at heq
      obtain ⟨b1, b2, b3, b4, b5, b6, b7, b8, b9, b10⟩ :=
        getUnusedObjectID_spec st st1 oid hInv.poolNodup hInv.poolFree
          hInv.poolNonneg heq
      exact ⟨b1, b2, b3, b4, b5, b6, Or.inr b7,
        aLook_aEmplace_self _ _ _ b7, b8, b9, b10⟩

/-- Registration of a fresh caller instance preserves the invariant: the
caller reference must be valid and distinct from every stored instance
(as holds whenever the caller registers an object it built itself). -/
theorem addObjectToLibrary_inv (h : Heap) (st : ContainerState) (r : Ref)
    (hdl : String) (h2 : Heap) (st2 : ContainerState) (i : Int)
    (hInv : RegInv h st) (hr : r < h.cells.length)
    (hfresh : ∀ k rr, aLook st.objectLibrary k = some rr → rr ≠ r)
    (heq : addObjectToLibrary h st r hdl = some (h2, st2, i)) :
    RegInv h2 st2 := by
  rcases hgid : getObjectIDByHandleOrNew
      (writeH h r { readD h r with handle := hdl }) st hdl true with ⟨st1, oid⟩
  have hread : ∀ rh, aLook st.objectLibrary hdl = some rh →
      readD (writeH h r { readD h r with handle := hdl }) rh = readD h rh :=
    fun rh hrh => readD_writeH_ne h r rh _ (Ne.symm (hfresh hdl rh hrh))
  obtain ⟨b1, b2, b3, b4, b5, b6, b7, b8, b9, b10, b11⟩ :=
    getObjectIDByHandleOrNew_spec h _ st st1 hdl oid hInv hread hgid
  simp only [addObjectToLibrary, hgid] at heq
  set hB : Heap := writeH (writeH h r { readD h r with handle := hdl }) r
      { readD (writeH h r { readD h r with handle := hdl }) r with objId := oid }
    with hhB
  have hrA : r < (writeH h r { readD h r with handle := hdl }).cells.length := by
    rw [length_writeH]
    exact hr
  have hlenB : hB.cells.length = h.cells.length := by
    rw [hhB, length_writeH, length_writeH]
  have hrdB : readD hB r
      = { readD (writeH h r { readD h r with handle := hdl }) r with objId := oid } :=
    readD_writeH_self _ r _ hrA
  have hBobjId : (readD hB r).objId = oid := by rw [hrdB]
  have hrdB_ne : ∀ s, s ≠ r → readD hB s = readD h s := by
    intro s hs
    rw [hhB, readD_writeH_ne _ r s _ (Ne.symm hs),
      readD_writeH_ne _ r s _ (Ne.symm hs)]
  cases hcopy : copyObject hB st1 r with
  | none =>
      rw [hcopy] at heq
      exact Option.noConfusion heq
  | some pr =>
      obtain ⟨h3, copyRef⟩ := pr
      rw [hcopy] at heq
      simp only [Option.some.injEq, Prod.mk.injEq] at heq
      obtain ⟨hh2, hst2, hi⟩ := heq
      simp only [copyObject] at hcopy
      by_cases hcc : st1.copyCtorKeys.contains (readD hB r).classKey
      swap
      · rw [if_neg (by simpa using hcc)] at hcopy
        exact Option.noConfusion hcopy
      rw [if_pos (by simpa using hcc)] at hcopy
      simp only [allocH, Option.some.injEq, Prod.mk.injEq] at hcopy
      obtain ⟨hh3, hcr⟩ := hcopy
      have hlib2 : st2.objectLibrary = aSet st.objectLibrary hdl copyRef := by
        rw [← hst2, b1]
      have hid2 : st2.objectLibKeyByID = aEmplace st.objectLibKeyByID oid hdl := by
        rw [← hst2, b2]
      have hpool2 : st2.availableObjectIDs = st1.availableObjectIDs := by
        rw [← hst2]
      have hcrv : copyRef = h.cells.length := by rw [← hcr, hlenB]
      have hlen2 : h2.cells.length = h.cells.length + 1 := by
        rw [← hh2, ← hh3]
        simp [hlenB]
      have hreadCopy : readD h2 copyRef = readD hB r := by
        rw [← hh2, ← hh3, ← hcr]
        exact readD_append_self hB (readD hB r)
      have hreadOld : ∀ s, s < h.cells.length → s ≠ r → readD h2 s = readD h s := by
        intro s hs hsr
        rw [← hh2, ← hh3, readD_append_lt hB _ s (by rw [hlenB]; exact hs)]
        exact hrdB_ne s hsr
      constructor
      · rw [hlib2]
        exact keysOf_aSet_nodup _ hdl _ hInv.libNodup
      · rw [hid2]
        exact keysOf_aEmplace_nodup _ oid hdl hInv.idNodup
      · intro k rr hk
        rw [hlib2] at hk
        by_cases hke : k = hdl
        · subst hke
          rw [aLook_aSet_self] at hk
          have h1 : copyRef = rr := Option.some.inj hk
          rw [← h1, hcrv, hlen2]
          exact Nat.lt_succ_self _
        · rw [aLook_aSet_ne _ _ _ _ hke] at hk
          have h1 := hInv.refsValid k rr hk
          rw [hlen2]
          exact Nat.lt_succ_of_lt h1
      · intro k rr hk
        rw [hlib2] at hk
        rw [hid2]
        by_cases hke : k = hdl
        · subst hke
          rw [aLook_aSet_self] at hk
          have h1 : copyRef = rr := Option.some.inj hk
          rw [← h1, hreadCopy, hBobjId]
          exact b8
        · rw [aLook_aSet_ne _ _ _ _ hke] at hk
          have hrrR : rr ≠ r := hfresh k rr hk
          have hrrlt : rr < h.cells.length := hInv.refsValid k rr hk
          have hrd : readD h2 rr = readD h rr := hreadOld rr hrrlt hrrR
          have hag := hInv.agree k rr hk
          have hneq : (readD h rr).objId ≠ oid := by
            intro hcon
            rw [hcon] at hag
            rcases b7 with hb | hb
            · rw [hb] at hag
              exact hke (Option.some.inj hag).symm
            · rw [hb] at hag
              exact Option.noConfusion hag
          rw [hrd, aLook_aEmplace_ne _ _ _ _ hneq]
          exact hag
      · rw [hpool2]
        exact b10
      · intro j hj
        rw [hpool2] at hj
        rw [hid2]
        obtain ⟨c1, c2, c3⟩ := b11 j hj
        rw [aLook_aEmplace_ne _ _ _ _ c1]
        exact c2
      · intro j hj
        rw [hpool2] at hj
        exact (b11 j hj).2.2
      · intro i' k' hk'
        rw [hid2] at hk'
        by_cases hio : i' = oid
        · subst hio
          exact b9
        · rw [aLook_aEmplace_ne _ _ _ _ hio] at hk'
          exact hInv.idsNonneg i' k' hk'

/-- `removeObjectInternal` never changes the heap. -/
theorem removeObjectInternal_heap (h : Heap) (st : ContainerState) (k : String) :
    (removeObjectInternal h st k).1 = h := by
  unfold removeObjectInternal
  by_cases hex : checkExists st k
  · simp only [hex, Bool.not_true, Bool.false_eq_true, if_false]
    by_cases hp : k ∈ st.undeletableObjectNames ∨ k ∈ st.userLockedObjectNames
    · simp [hp]
    · rw [if_neg (by simpa using hp)]
      cases hget : getObjectInternal st k <;> simp
  · simp [hex]

/-- `removeObjectInternal` never changes the protection sets, the
copy-constructor keys or the default object. -/
theorem removeObjectInternal_frame (h : Heap) (st : ContainerState) (k : String) :
    (removeObjectInternal h st k).2.1.undeletableObjectNames
        = st.undeletableObjectNames ∧
    (removeObjectInternal h st k).2.1.userLockedObjectNames
        = st.userLockedObjectNames ∧
    (removeObjectInternal h st k).2.1.copyCtorKeys = st.copyCtorKeys := by
  unfold removeObjectInternal
  by_cases hex : checkExists st k
  · simp only [hex, Bool.not_true, Bool.false_eq_true, if_false]
    by_cases hp : k ∈ st.undeletableObjectNames ∨ k ∈ st.userLockedObjectNames
    · simp [hp]
    · rw [if_neg (by simpa using hp)]
      cases hget : getObjectInternal st k <;> simp [deleteObjectInternal]
  · simp [hex]

/-- Deleting a live entry preserves the invariant. -/
theorem deleteObjectInternal_inv (h : Heap) (st : ContainerState) (k : String)
    (r : Ref) (hInv : RegInv h st) (hlib : aLook st.objectLibrary k = some r) :
    RegInv h (deleteObjectInternal st (readD h r).objId k) := by
  have hagr := hInv.agree k r hlib
  constructor
  · show (keysOf (aErase st.objectLibrary k)).Nodup
    exact keysOf_aErase_nodup _ k hInv.libNodup
  · show (keysOf (aErase st.objectLibKeyByID (readD h r).objId)).Nodup
    exact keysOf_aErase_nodup _ _ hInv.idNodup
  · intro k' rr hk
    replace hk : aLook (aErase st.objectLibrary k) k' = some rr := hk
    by_cases hkk : k' = k
    · subst hkk
      rw [aLook_aErase_self _ _ hInv.libNodup] at hk
      exact Option.noConfusion hk
    · rw [aLook_aErase_ne _ _ _ hkk] at hk
      exact hInv.refsValid k' rr hk
  · intro k' rr hk
    replace hk : aLook (aErase st.objectLibrary k) k' = some rr := hk
    show aLook (aErase st.objectLibKeyByID (readD h r).objId)
        (readD h rr).objId = some k'
    by_cases hkk : k' = k
    · subst hkk
      rw [aLook_aErase_self _ _ hInv.libNodup] at hk
      exact Option.noConfusion hk
    · rw [aLook_aErase_ne _ _ _ hkk] at hk
      have hag' := hInv.agree k' rr hk
      have hne : (readD h rr).objId ≠ (readD h r).objId := by
        intro hcon
        rw [hcon, hagr] at hag'
        exact hkk (Option.some.inj hag').symm
      rw [aLook_aErase_ne _ _ _ hne]
      exact hag'
  · show ((readD h r).objId :: st.availableObjectIDs).Nodup
    refine List.nodup_cons.mpr ⟨?_, hInv.poolNodup⟩
    intro hmem
    have hc := hInv.poolFree _ hmem
    rw [hagr] at hc
    exact Option.noConfusion hc
  · intro j hj
    replace hj : j ∈ (readD h r).objId :: st.availableObjectIDs := hj
    show aLook (aErase st.objectLibKeyByID (readD h r).objId) j = none
    by_cases hjo : j = (readD h r).objId
    · subst hjo
      exact aLook_aErase_self _ _ hInv.idNodup
    · rw [aLook_aErase_ne _ _ _ hjo]
      rcases List.mem_cons.mp hj with hj2 | hj2
      · exact absurd hj2 hjo
      · exact hInv.poolFree j hj2
  · intro j hj
    replace hj : j ∈ (readD h r).objId :: st.availableObjectIDs := hj
    rcases List.mem_cons.mp hj with hj2 | hj2
    · subst hj2
      exact hInv.idsNonneg _ k hagr
    · exact hInv.poolNonneg j hj2
  · intro i' k' hk'
    replace hk' : aLook (aErase st.objectLibKeyByID (readD h r).objId) i'
        = some k' := hk'
    by_cases hio : i' = (readD h r).objId
    · subst hio
      rw [aLook_aErase_self _ _ hInv.idNodup] at hk'
      exact Option.noConfusion hk'
    · rw [aLook_aErase_ne _ _ _ hio] at hk'
      exact hInv.idsNonneg i' k' hk'

/-- Removal by handle preserves the invariant. -/
theorem removeObjectInternal_inv (h : Heap) (st : ContainerState) (k : String)
    (hInv : RegInv h st) : RegInv h (removeObjectInternal h st k).2.1 := by
  unfold removeObjectInternal
  by_cases hex : checkExists st k
  · simp only [hex, Bool.not_true, Bool.false_eq_true, if_false]
    by_cases hp : k ∈ st.undeletableObjectNames ∨ k ∈ st.userLockedObjectNames
    · simpa [hp] using hInv
    · rw [if_neg (by simpa using hp)]
      cases hget : getObjectInternal st k with
      | none => exact hInv
      | some r => exact deleteObjectInternal_inv h st k r hInv hget
  · simpa [hex] using hInv

/-- The removal loop keeps the heap and preserves the invariant. -/
theorem removeLoop_inv (hs : List String) (h : Heap) (st : ContainerState)
    (hInv : RegInv h st) :
    (removeLoop h st hs).1 = h ∧ RegInv h (removeLoop h st hs).2.1 := by
  induction hs generalizing st with
  | nil => exact ⟨rfl, hInv⟩
  | cons hd rest ih =>
      have hh := removeObjectInternal_heap h st hd
      have hI := removeObjectInternal_inv h st hd hInv
      obtain ⟨ih1, ih2⟩ := ih (removeObjectInternal h st hd).2.1 hI
      simp only [removeLoop, hh]
      cases hres : (removeObjectInternal h st hd).2.2 with
      | none =>
          simp only [hres]
          exact ⟨ih1, ih2⟩
      | some r =>
          simp only [hres]
          exact ⟨ih1, ih2⟩

/-- Successful registration of a fresh caller instance preserves the
invariant. -/
theorem registerObject_inv (h : Heap) (st : ContainerState) (r : Ref)
    (hdl : String) (force accept : Bool) (h2 : Heap) (st2 : ContainerState)
    (i : Int) (hInv : RegInv h st) (hr : r < h.cells.length)
    (hfresh : ∀ k rr, aLook st.objectLibrary k = some rr → rr ≠ r)
    (heq : registerObject h st (some r) hdl force accept = some (h2, st2, i)) :
    RegInv h2 st2 := by
  simp only [registerObject, registerObjectFinalize] at heq
  by_cases hhdl : hdl = ""
  · subst hhdl
    simp only [ne_eq, not_true_eq_false, if_false, reduceIte] at heq
    by_cases hts : (readD h r).handle = ""
    · rw [if_pos hts] at heq
      simp only [Option.some.injEq, Prod.mk.injEq] at heq
      obtain ⟨e1, e2, _⟩ := heq
      subst e1
      subst e2
      exact hInv
    · rw [if_neg hts] at heq
      by_cases hacc : (accept || force) = true
      · rw [if_pos hacc] at heq
        exact addObjectToLibrary_inv h st r _ h2 st2 i hInv hr hfresh heq
      · rw [if_neg hacc] at heq
        simp only [Option.some.injEq, Prod.mk.injEq] at heq
        obtain ⟨e1, e2, _⟩ := heq
        subst e1
        subst e2
        exact hInv
  · rw [if_pos (by simpa using hhdl)] at heq
    by_cases hacc : (accept || force) = true
    · rw [if_pos hacc] at heq
      exact addObjectToLibrary_inv h st r _ h2 st2 i hInv hr hfresh heq
    · rw [if_neg hacc] at heq
      simp only [Option.some.injEq, Prod.mk.injEq] at heq
      obtain ⟨e1, e2, _⟩ := heq
      subst e1
      subst e2
      exact hInv

/-- Removal by ID keeps the heap and preserves the invariant. -/
theorem removeObjectByID_inv (h : Heap) (st : ContainerState) (i : Int)
    (hInv : RegInv h st) :
    (removeObjectByID h st i).1 = h ∧ RegInv h (removeObjectByID h st i).2.1 := by
  unfold removeObjectByID
  by_cases hex : checkExists st (getObjectHandleByID st i)
  · simp only [hex, Bool.not_true, Bool.false_eq_true, if_false]
    exact ⟨removeObjectInternal_heap _ _ _, removeObjectInternal_inv _ _ _ hInv⟩
  · simp only [hex, Bool.not_false, if_true]
    exact ⟨trivial, hInv⟩

/-- Fetching a copy can only extend the heap; the state is untouched, so
the invariant is preserved at the new heap. -/
theorem getObjectCopyByHandle_inv (h : Heap) (st : ContainerState)
    (k : String) (h' : Heap) (o : Option Ref) (hInv : RegInv h st)
    (heq : getObjectCopyByHandle h st k = some (h', o)) : RegInv h' st := by
  unfold getObjectCopyByHandle at heq
  by_cases hex : checkExists st k
  · rw [if_pos hex] at heq
    cases hget : getObjectInternal st k with
    | none =>
        simp only [hget, Option.some.injEq, Prod.mk.injEq] at heq
        rw [← heq.1]
        exact hInv
    | some r =>
        simp only [hget] at heq
        cases hcopy : copyObject h st r with
        | none =>
            simp only [hcopy] at heq
            exact Option.noConfusion heq
        | some pr =>
            obtain ⟨hh, rc⟩ := pr
            simp only [hcopy, Option.some.injEq, Prod.mk.injEq] at heq
            obtain ⟨e1, _⟩ := heq
            subst e1
            simp only [copyObject] at hcopy
            by_cases hcc : st.copyCtorKeys.contains (readD h r).classKey
            · rw [if_pos (by simpa using hcc)] at hcopy
              simp only [allocH, Option.some.injEq, Prod.mk.injEq] at hcopy
              rw [← hcopy.1]
              exact RegInv_extend h st _ hInv
            · rw [if_neg (by simpa using hcc)] at hcopy
              exact Option.noConfusion hcopy
  · rw [if_neg hex] at heq
    simp only [Option.some.injEq, Prod.mk.injEq] at heq
    rw [← heq.1]
    exact hInv

/-- Every container call preserves the invariant. -/
theorem runOp_inv (h : Heap) (st : ContainerState) (op : Op) (h' : Heap)
    (st' : ContainerState) (hInv : RegInv h st)
    (heq : runOp h st op = some (h', st')) : RegInv h' st' := by
  cases op with
  | register obj hdl force accept =>
      cases obj with
      | none =>
          simp only [runOp, registerObject, Option.map_some, Option.map_some',
            Option.some.injEq, Prod.mk.injEq] at heq
          obtain ⟨e1, e2⟩ := heq
          subst e1
          subst e2
          exact hInv
      | some v =>
          simp only [runOp, allocH] at heq
          cases hre : registerObject (⟨h.cells ++ [v]⟩ : Heap) st
              (some h.cells.length) hdl force accept with
          | none =>
              rw [hre] at heq
              simp at heq
          | some res =>
              obtain ⟨rh, rst, ri⟩ := res
              simp only [hre, Option.map_some', Option.some.injEq,
                Prod.mk.injEq] at heq
              obtain ⟨e1, e2⟩ := heq
              subst e1
              subst e2
              have hInv1 := RegInv_extend h st v hInv
              refine registerObject_inv _ st h.cells.length hdl force accept
                rh rst ri hInv1 ?_ ?_ hre
              · show h.cells.length < (h.cells ++ [v]).length
                rw [List.length_append]
                exact Nat.lt_succ_self h.cells.length
              · intro k rr hk
                exact Nat.ne_of_lt (hInv.refsValid k rr hk)
  | removeByHandle hdl =>
      simp only [runOp, removeObjectByHandle, Option.some.injEq,
        Prod.mk.injEq] at heq
      obtain ⟨e1, e2⟩ := heq
      subst e1
      subst e2
      rw [removeObjectInternal_heap]
      exact removeObjectInternal_inv h st hdl hInv
  | removeByID i =>
      simp only [runOp, Option.some.injEq, Prod.mk.injEq] at heq
      obtain ⟨e1, e2⟩ := heq
      subst e1
      subst e2
      obtain ⟨l1, l2⟩ := removeObjectByID_inv h st i hInv
      rw [l1]
      exact l2
  | removeBySub sstr c =>
      simp only [runOp, removeObjectsBySubstring, Option.some.injEq,
        Prod.mk.injEq] at heq
      obtain ⟨e1, e2⟩ := heq
      subst e1
      subst e2
      obtain ⟨l1, l2⟩ := removeLoop_inv (getObjectHandlesBySubstring st sstr c)
        h st hInv
      rw [l1]
      exact l2
  | getCopy hdl =>
      simp only [runOp] at heq
      cases hg : getObjectCopyByHandle h st hdl with
      | none =>
          rw [hg] at heq
          simp at heq
      | some pr =>
          obtain ⟨hh, o⟩ := pr
          simp only [hg, Option.map_some', Option.some.injEq,
            Prod.mk.injEq] at heq
          obtain ⟨e1, e2⟩ := heq
          subst e1
          subst e2
          exact getObjectCopyByHandle_inv h st hdl hh o hInv hg
  | look hdl =>
      simp only [runOp, Option.some.injEq, Prod.mk.injEq] at heq
      obtain ⟨e1, e2⟩ := heq
      subst e1
      subst e2
      exact hInv

/-- Every sequence of container calls preserves the invariant. -/
theorem runOps_inv (ops : List Op) (h : Heap) (st : ContainerState)
    (hInv : RegInv h st) (h' : Heap) (st' : ContainerState)
    (heq : runOps h st ops = some (h', st')) : RegInv h' st' := by
  induction ops generalizing h st with
  | nil =>
      simp only [runOps, Option.some.injEq, Prod.mk.injEq] at heq
      obtain ⟨e1, e2⟩ := heq
      subst e1
      subst e2
      exact hInv
  | cons op rest ih =>
      simp only [runOps] at heq
      cases hop : runOp h st op with
      | none =>
          rw [hop] at heq
          simp at heq
      | some x =>
          obtain ⟨h1, st1⟩ := x
          simp only [hop] at heq
          exact ih h1 st1 (runOp_inv h st op h1 st1 hInv hop) heq

/-- The ID allocator only touches the reuse pool. -/
theorem getUnusedObjectID_frame (st : ContainerState) :
    (getUnusedObjectID st).1.objectLibrary = st.objectLibrary ∧
    (getUnusedObjectID st).1.objectLibKeyByID = st.objectLibKeyByID ∧
    (getUnusedObjectID st).1.copyCtorKeys = st.copyCtorKeys ∧
    (getUnusedObjectID st).1.undeletableObjectNames = st.undeletableObjectNames ∧
    (getUnusedObjectID st).1.userLockedObjectNames = st.userLockedObjectNames := by
  unfold getUnusedObjectID
  cases minOfList st.availableObjectIDs <;> simp

/-- ID resolution only touches the reuse pool. -/
theorem getObjectIDByHandleOrNew_frame (h1 : Heap) (st : ContainerState)
    (hdl : String) :
    (getObjectIDByHandleOrNew h1 st hdl true).1.objectLibrary = st.objectLibrary ∧
    (getObjectIDByHandleOrNew h1 st hdl true).1.objectLibKeyByID
      = st.objectLibKeyByID ∧
    (getObjectIDByHandleOrNew h1 st hdl true).1.copyCtorKeys = st.copyCtorKeys ∧
    (getObjectIDByHandleOrNew h1 st hdl true).1.undeletableObjectNames
      = st.undeletableObjectNames ∧
    (getObjectIDByHandleOrNew h1 st hdl true).1.userLockedObjectNames
      = st.userLockedObjectNames := by
  unfold getObjectIDByHandleOrNew
  cases getObjectInternal st hdl with
  | some r => simp
  | none =>
      simp only [if_true]
      exact getUnusedObjectID_frame st

/-- Characterization of a successful `addObjectToLibrary` call on a fresh
caller instance: the heap gains exactly one cell — the private copy,
stored at the fresh reference `h.cells.length` —, the library maps the
handle to that fresh reference, the caller instance has been updated in
place with the resolved handle and the assigned ID, and the stored copy
holds exactly the same value. -/
theorem addObjectToLibrary_success (h : Heap) (st : ContainerState) (r : Ref)
    (hdl : String) (h2 : Heap) (st2 : ContainerState) (i : Int)
    (hr : r < h.cells.length)
    (heq : addObjectToLibrary h st r hdl = some (h2, st2, i)) :
    h2.cells.length = h.cells.length + 1 ∧
    st2.objectLibrary = aSet st.objectLibrary hdl h.cells.length ∧
    (∀ s, s ≠ r → s < h.cells.length → readD h2 s = readD h s) ∧
    readD h2 r = { readD h r with handle := hdl, objId := i } ∧
    readD h2 h.cells.length = { readD h r with handle := hdl, objId := i } ∧
    st2.copyCtorKeys = st.copyCtorKeys ∧
    st2.undeletableObjectNames = st.undeletableObjectNames ∧
    st2.userLockedObjectNames = st.userLockedObjectNames ∧
    st.copyCtorKeys.contains (readD h r).classKey = true := by
  rcases hgid : getObjectIDByHandleOrNew
      (writeH h r { readD h r with handle := hdl }) st hdl true with ⟨st1, oid⟩
  obtain ⟨f1, f2, f3, f4, f5⟩ := getObjectIDByHandleOrNew_frame
    (writeH h r { readD h r with handle := hdl }) st hdl
  rw [hgid] at f1 f2 f3 f4 f5
  simp only [addObjectToLibrary, hgid] at heq
  set hB : Heap := writeH (writeH h r { readD h r with handle := hdl }) r
      { readD (writeH h r { readD h r with handle := hdl }) r with objId := oid }
    with hhB
  have hrA : r < (writeH h r { readD h r with handle := hdl }).cells.length := by
    rw [length_writeH]
    exact hr
  have hlenB : hB.cells.length = h.cells.length := by
    rw [hhB, length_writeH, length_writeH]
  have hrdA : readD (writeH h r { readD h r with handle := hdl }) r
      = { readD h r with handle := hdl } := readD_writeH_self h r _ hr
  have hrdB : readD hB r = { readD h r with handle := hdl, objId := oid } := by
    rw [hhB, readD_writeH_self _ r _ hrA, hrdA]
  have hrdB_ne : ∀ s, s ≠ r → readD hB s = readD h s := by
    intro s hs
    rw [hhB, readD_writeH_ne _ r s _ (Ne.symm hs),
      readD_writeH_ne _ r s _ (Ne.symm hs)]
  cases hcopy : copyObject hB st1 r with
  | none =>
      rw [hcopy] at heq
      exact Option.noConfusion heq
  | some pr =>
      obtain ⟨h3, copyRef⟩ := pr
      rw [hcopy] at heq
      simp only [Option.some.injEq, Prod.mk.injEq] at heq
      obtain ⟨hh2, hst2, hi⟩ := heq
      subst hi
      simp only [copyObject] at hcopy
      by_cases hcc : st1.copyCtorKeys.contains (readD hB r).classKey
      swap
      · rw [if_neg (by simpa using hcc)] at hcopy
        exact Option.noConfusion hcopy
      rw [if_pos (by simpa using hcc)] at hcopy
      simp only [allocH, Option.some.injEq, Prod.mk.injEq] at hcopy
      obtain ⟨hh3, hcr⟩ := hcopy
      have hcrv : copyRef = h.cells.length := by rw [← hcr, hlenB]
      have hck : (readD hB r).classKey = (readD h r).classKey := by rw [hrdB]
      refine ⟨?_, ?_, ?_, ?_, ?_, ?_, ?_, ?_, ?_⟩
      · rw [← hh2, ← hh3]
        simp [hlenB]
      · rw [← hst2, f1, hcrv]
      · intro s hs hslt
        rw [← hh2, ← hh3, readD_append_lt hB _ s (by rw [hlenB]; exact hslt)]
        exact hrdB_ne s hs
      · rw [← hh2, ← hh3,
          readD_append_lt hB _ r (by rw [hlenB]; exact hr), hrdB]
      · rw [← hh2, ← hh3, ← hlenB]
        rw [readD_append_self hB (readD hB r), hrdB]
      · rw [← hst2, f3]
      · rw [← hst2, f4]
      · rw [← hst2, f5]
      · rw [← f3, ← hck]
        simpa using hcc

/-! ### Claim theorems -/

/-- C3: in every state reachable from a fresh container by any sequence of
register, remove and lookup operations, every live handle maps to exactly
one stored object (unique library keys) and exactly one ID, every
registered ID maps to exactly one handle (unique ID-map keys), the ID
stored inside the object under a handle agrees with the ID-to-handle map
entry, and distinct live handles carry distinct IDs. -/
theorem C3_handle_id_bijection (ops : List Op) (ctorKeys : List String)
    (h : Heap) (st : ContainerState)
    (hrun : runOps ⟨[]⟩ (initState ctorKeys) ops = some (h, st)) :
    (keysOf st.objectLibrary).Nodup ∧
    (keysOf st.objectLibKeyByID).Nodup ∧
    (∀ k r, aLook st.objectLibrary k = some r →
      aLook st.objectLibKeyByID (readD h r).objId = some k) ∧
    (∀ k1 k2 r1 r2, aLook st.objectLibrary k1 = some r1 →
      aLook st.objectLibrary k2 = some r2 →
      (readD h r1).objId = (readD h r2).objId → k1 = k2) := by
  have hInv := runOps_inv ops ⟨[]⟩ (initState ctorKeys)
    (RegInv_init ctorKeys ⟨[]⟩) h st hrun
  refine ⟨hInv.libNodup, hInv.idNodup, hInv.agree, ?_⟩
  intro k1 k2 r1 r2 h1 h2 he
  have a1 := hInv.agree k1 r1 h1
  have a2 := hInv.agree k2 r2 h2
  rw [he] at a1
  rw [a2] at a1
  exact (Option.some.inj a1).symm

/-- Concrete operation sequence exercising register, overwrite, removal
and ID reuse. -/
def opsC3 : List Op :=
  [Op.register (some ⟨"a", ID_UNDEFINED, "K", 1⟩) "a" false true,
   Op.register (some ⟨"b", ID_UNDEFINED, "K", 2⟩) "b" false true,
   Op.removeByHandle "a",
   Op.register (some ⟨"c", ID_UNDEFINED, "K", 3⟩) "c" false true,
   Op.getCopy "b",
   Op.look "c"]

/-- The state reached by `opsC3`. -/
def resC3 : Heap × ContainerState :=
  (runOps ⟨[]⟩ (initState ["K"]) opsC3).getD (⟨[]⟩, initState ["K"])

theorem C3_handle_id_bijection_witness :
    (keysOf resC3.2.objectLibrary).Nodup ∧
    (keysOf resC3.2.objectLibKeyByID).Nodup ∧
    (∀ k r, aLook resC3.2.objectLibrary k = some r →
      aLook resC3.2.objectLibKeyByID (readD resC3.1 r).objId = some k) ∧
    (∀ k1 k2 r1 r2, aLook resC3.2.objectLibrary k1 = some r1 →
      aLook resC3.2.objectLibrary k2 = some r2 →
      (readD resC3.1 r1).objId = (readD resC3.1 r2).objId → k1 = k2) :=
  C3_handle_id_bijection opsC3 ["K"] resC3.1 resC3.2 (by rfl)

/-- C1: after a successful registration of the caller instance `r` under
handle `hdl`, the registry holds a private copy `rs` distinct from `r`;
mutating `r` (the instance the caller passed in) does not change the
stored value that `getObjectByHandle hdl` exposes, and mutating the
instance returned by `getObjectCopyByHandle hdl` does not change it
either. -/
theorem C1_copy_on_register_isolation (h : Heap) (st : ContainerState)
    (r : Ref) (hdl : String) (force : Bool) (h2 : Heap)
    (st2 : ContainerState) (i : Int)
    (hr : r < h.cells.length) (hhdl : hdl ≠ "")
    (hreg : registerObject h st (some r) hdl force true = some (h2, st2, i)) :
    ∃ rs, getObjectByHandle st2 hdl = some rs ∧ rs ≠ r ∧
      (∀ v, readD (writeH h2 r v) rs = readD h2 rs) ∧
      (∀ h3 rc, getObjectCopyByHandle h2 st2 hdl = some (h3, some rc) →
        rc ≠ rs ∧ readD h3 rc = readD h3 rs ∧
        (∀ v, readD (writeH h3 rc v) rs = readD h3 rs)) := by
  have hadd : addObjectToLibrary h st r hdl = some (h2, st2, i) := by
    simpa [registerObject, registerObjectFinalize, hhdl] using hreg
  obtain ⟨a1, a2, a3, a4, a5, a6, a7, a8, a9⟩ :=
    addObjectToLibrary_success h st r hdl h2 st2 i hr hadd
  have hlook : aLook st2.objectLibrary hdl = some h.cells.length := by
    rw [a2]
    exact aLook_aSet_self _ hdl _
  refine ⟨h.cells.length, ?_, Ne.symm (Nat.ne_of_lt hr), ?_, ?_⟩
  · simp [getObjectByHandle, checkExists, getObjectInternal, hlook]
  · intro v
    exact readD_writeH_ne h2 r h.cells.length v (Nat.ne_of_lt hr)
  · intro h3 rc hcopy
    simp only [getObjectCopyByHandle, checkExists, getObjectInternal, hlook,
      Option.isSome_some, if_true] at hcopy
    cases hco : copyObject h2 st2 h.cells.length with
    | none =>
        simp only [hco] at hcopy
        exact Option.noConfusion hcopy
    | some pr =>
        obtain ⟨hh3, rc2⟩ := pr
        simp only [hco, Option.some.injEq, Prod.mk.injEq] at hcopy
        obtain ⟨e1, e2⟩ := hcopy
        subst e1
        subst e2
        simp only [copyObject] at hco
        by_cases hcc : st2.copyCtorKeys.contains
            (readD h2 h.cells.length).classKey
        swap
        · rw [if_neg (by simpa using hcc)] at hco
          exact Option.noConfusion hco
        rw [if_pos (by simpa using hcc)] at hco
        simp only [allocH, Option.some.injEq, Prod.mk.injEq] at hco
        obtain ⟨f1, f2⟩ := hco
        have hrcne : rc2 ≠ h.cells.length := by
          rw [← f2, a1]
          exact Nat.succ_ne_self h.cells.length
        have hrd1 : readD hh3 rc2 = readD h2 h.cells.length := by
          rw [← f1, ← f2]
          exact readD_append_self h2 _
        have hrd2 : readD hh3 h.cells.length = readD h2 h.cells.length := by
          rw [← f1]
          exact readD_append_lt h2 _ h.cells.length (by rw [a1]; exact Nat.lt_succ_self _)
        refine ⟨hrcne, ?_, ?_⟩
        · rw [hrd1, hrd2]
        · intro v
          exact readD_writeH_ne hh3 rc2 h.cells.length v hrcne

/-- Concrete fixture for C1: a one-object heap and a container that knows
class key K. -/
def hC1 : Heap := ⟨[⟨"a", ID_UNDEFINED, "K", 7⟩]⟩

def stC1 : ContainerState := initState ["K"]

def regC1 : Heap × ContainerState × Int :=
  (registerObject hC1 stC1 (some 0) "a" false true).getD (hC1, stC1, ID_UNDEFINED)

theorem C1_copy_on_register_isolation_witness :
    ∃ rs, getObjectByHandle regC1.2.1 "a" = some rs ∧ rs ≠ 0 ∧
      (∀ v, readD (writeH regC1.1 0 v) rs = readD regC1.1 rs) ∧
      (∀ h3 rc, getObjectCopyByHandle regC1.1 regC1.2.1 "a"
          = some (h3, some rc) →
        rc ≠ rs ∧ readD h3 rc = readD h3 rs ∧
        (∀ v, readD (writeH h3 rc v) rs = readD h3 rs)) :=
  C1_copy_on_register_isolation hC1 stC1 0 "a" false regC1.1 regC1.2.1
    regC1.2.2 (by decide) (by decide) (by rfl)

/-- C2: registering an object under its own handle and then fetching a
copy by that handle yields an instance distinct from the caller instance
but equal to it in every observable field, handle and assigned ID
included. -/
theorem C2_register_roundtrip (h : Heap) (st : ContainerState) (r : Ref)
    (force : Bool) (h2 : Heap) (st2 : ContainerState) (i : Int)
    (hr : r < h.cells.length) (hhdl : (readD h r).handle ≠ "")
    (hreg : registerObject h st (some r) "" force true = some (h2, st2, i)) :
    ∃ h3 rc, getObjectCopyByHandle h2 st2 (readD h r).handle
        = some (h3, some rc) ∧
      rc ≠ r ∧ readD h3 rc = readD h3 r ∧
      (readD h3 rc).objId = i ∧ (readD h3 rc).handle = (readD h r).handle := by
  have hadd : addObjectToLibrary h st r (readD h r).handle
      = some (h2, st2, i) := by
    simpa [registerObject, registerObjectFinalize, hhdl] using hreg
  obtain ⟨a1, a2, a3, a4, a5, a6, a7, a8, a9⟩ :=
    addObjectToLibrary_success h st r (readD h r).handle h2 st2 i hr hadd
  have hlook : aLook st2.objectLibrary (readD h r).handle
      = some h.cells.length := by
    rw [a2]
    exact aLook_aSet_self _ _ _
  have hck2 : st2.copyCtorKeys.contains
      ((readD h2 h.cells.length).classKey) = true := by
    rw [a5, a6]
    exact a9
  have hmem : (readD h2 h.cells.length).classKey ∈ st2.copyCtorKeys := by
    simpa using hck2
  refine ⟨⟨h2.cells ++ [readD h2 h.cells.length]⟩, h2.cells.length,
    ?_, ?_, ?_, ?_, ?_⟩
  · simp [getObjectCopyByHandle, checkExists, getObjectInternal, hlook,
      copyObject, hmem, allocH]
  · rw [a1]
    exact Ne.symm (Nat.ne_of_lt (Nat.lt_succ_of_lt hr))
  · rw [readD_append_self h2 _,
      readD_append_lt h2 _ r (by rw [a1]; exact Nat.lt_succ_of_lt hr), a4, a5]
  · rw [readD_append_self h2 _, a5]
  · rw [readD_append_self h2 _, a5]

/-- Concrete fixture for C2. -/
def hC2 : Heap := ⟨[⟨"x", ID_UNDEFINED, "K", 3⟩]⟩

def stC2 : ContainerState := initState ["K"]

def regC2 : Heap × ContainerState × Int :=
  (registerObject hC2 stC2 (some 0) "" false true).getD (hC2, stC2, ID_UNDEFINED)

theorem C2_register_roundtrip_witness :
    ∃ h3 rc, getObjectCopyByHandle regC2.1 regC2.2.1 (readD hC2 0).handle
        = some (h3, some rc) ∧
      rc ≠ 0 ∧ readD h3 rc = readD h3 0 ∧
      (readD h3 rc).objId = regC2.2.2 ∧
      (readD h3 rc).handle = (readD hC2 0).handle :=
  C2_register_roundtrip hC2 stC2 0 false regC2.1 regC2.2.1 regC2.2.2
    (by decide) (by decide) (by rfl)

/-- C4: `registerObject` input validation and handle resolution — a null
object fails immediately with `ID_UNDEFINED`; a non-empty explicit handle
argument is used in preference to the object's own handle; when both the
explicit handle and the object's own handle are empty the call fails with
`ID_UNDEFINED`; and a finalize-step rejection (family policy rejects and
`forceRegistration` is not set) also yields `ID_UNDEFINED` with no state
change. -/
theorem C4_registerObject_validation (h : Heap) (st : ContainerState)
    (r : Ref) (hdl : String) (force accept : Bool) :
    registerObject h st none hdl force accept = some (h, st, ID_UNDEFINED) ∧
    (hdl ≠ "" → registerObject h st (some r) hdl force accept
        = registerObjectFinalize h st r hdl force accept) ∧
    ((readD h r).handle = "" →
      registerObject h st (some r) "" force accept
        = some (h, st, ID_UNDEFINED)) ∧
    ((readD h r).handle ≠ "" →
      registerObject h st (some r) "" force accept
        = registerObjectFinalize h st r ((readD h r).handle) force accept) ∧
    (accept = false → force = false →
      registerObjectFinalize h st r hdl force accept
        = some (h, st, ID_UNDEFINED)) := by
  refine ⟨rfl, ?_, ?_, ?_, ?_⟩
  · intro hne
    simp [registerObject, hne]
  · intro hown
    simp [registerObject, hown]
  · intro hown
    simp [registerObject, hown]
  · intro ha hf
    subst ha
    subst hf
    simp [registerObjectFinalize]

/-- Concrete fixture for C4: instance 0 has a non-empty handle, instance 1
an empty one. -/
def hC4 : Heap := ⟨[⟨"a", ID_UNDEFINED, "K", 1⟩, ⟨"", ID_UNDEFINED, "K", 2⟩]⟩

def stC4 : ContainerState := initState ["K"]

theorem C4_registerObject_validation_witness :
    registerObject hC4 stC4 none "x" false false
      = some (hC4, stC4, ID_UNDEFINED) ∧
    registerObject hC4 stC4 (some 0) "x" false false
      = registerObjectFinalize hC4 stC4 0 "x" false false ∧
    registerObject hC4 stC4 (some 1) "" false false
      = some (hC4, stC4, ID_UNDEFINED) ∧
    registerObject hC4 stC4 (some 0) "" false false
      = registerObjectFinalize hC4 stC4 0 ((readD hC4 0).handle) false false ∧
    registerObjectFinalize hC4 stC4 0 "x" false false
      = some (hC4, stC4, ID_UNDEFINED) := by
  obtain ⟨c1, c2, c3, c4, c5⟩ :=
    C4_registerObject_validation hC4 stC4 0 "x" false false
  obtain ⟨_, _, d3, _, _⟩ :=
    C4_registerObject_validation hC4 stC4 1 "x" false false
  exact ⟨c1, c2 (by decide), d3 (by decide), c4 (by decide),
    c5 rfl rfl⟩

/-- C6: a handle in the undeletable set or in the user-locked set cannot
be removed — `removeObjectByHandle` returns null with the heap and the
whole registry state (library, ID map, pool, protection sets) unchanged,
and so does `removeObjectByID` for any ID resolving to that handle. -/
theorem C6_protected_removal_denied (h : Heap) (st : ContainerState)
    (hdl : String)
    (hprot : hdl ∈ st.undeletableObjectNames ∨ hdl ∈ st.userLockedObjectNames) :
    removeObjectByHandle h st hdl = (h, st, none) ∧
    (∀ i, getObjectHandleByID st i = hdl →
      removeObjectByID h st i = (h, st, none)) := by
  have hrem : removeObjectInternal h st hdl = (h, st, none) := by
    unfold removeObjectInternal
    by_cases hex : checkExists st hdl
    · simp only [hex, Bool.not_true, Bool.false_eq_true, if_false]
      rw [if_pos (by simpa using hprot)]
    · simp [hex]
  refine ⟨hrem, ?_⟩
  intro i hi
  unfold removeObjectByID
  rw [hi]
  by_cases hex : checkExists st hdl
  · simp only [hex, Bool.not_true, Bool.false_eq_true, if_false]
    exact hrem
  · simp [hex]

/-- Concrete fixture for C6: handle a is registered and undeletable,
handle b is registered and user-locked. -/
def hC6 : Heap := ⟨[⟨"a", 0, "K", 1⟩, ⟨"b", 1, "K", 2⟩]⟩

def stC6 : ContainerState :=
  ⟨[("a", 0), ("b", 1)], [(0, "a"), (1, "b")], [], ["a"], ["b"], ["K"], none⟩

theorem C6_protected_removal_denied_witness :
    (removeObjectByHandle hC6 stC6 "a" = (hC6, stC6, none) ∧
      (∀ i, getObjectHandleByID stC6 i = "a" →
        removeObjectByID hC6 stC6 i = (hC6, stC6, none))) ∧
    (removeObjectByHandle hC6 stC6 "b" = (hC6, stC6, none) ∧
      (∀ i, getObjectHandleByID stC6 i = "b" →
        removeObjectByID hC6 stC6 i = (hC6, stC6, none))) :=
  ⟨C6_protected_removal_denied hC6 stC6 "a" (by decide),
   C6_protected_removal_denied hC6 stC6 "b" (by decide)⟩

/-- C9: copy dispatch — when the class key of the object has an entry in
the copy-constructor map, `copyObject` succeeds and returns a fresh
instance holding exactly the same value (the missing-key branch is
unreachable); when the key is absent, `copyObject` terminates abnormally
(`none`, the null member-function-pointer call) rather than returning a
wrong or null object value. -/
theorem C9_copy_dispatch_miss_fatal (h : Heap) (st : ContainerState)
    (r : Ref) :
    (st.copyCtorKeys.contains (readD h r).classKey = true →
      copyObject h st r = some (⟨h.cells ++ [readD h r]⟩, h.cells.length) ∧
      readD ⟨h.cells ++ [readD h r]⟩ h.cells.length = readD h r) ∧
    (st.copyCtorKeys.contains (readD h r).classKey = false →
      copyObject h st r = none) := by
  constructor
  · intro hk
    have hm : (readD h r).classKey ∈ st.copyCtorKeys := by simpa using hk
    exact ⟨by simp [copyObject, allocH, hm], readD_append_self h _⟩
  · intro hk
    have hm : (readD h r).classKey ∉ st.copyCtorKeys := by simpa using hk
    simp [copyObject, hm]

/-- Concrete fixture for C9: instance 0 has a mapped class key, instance 1
an unmapped one. -/
def hC9 : Heap := ⟨[⟨"a", 0, "K", 1⟩, ⟨"b", 1, "Missing", 2⟩]⟩

def stC9 : ContainerState := initState ["K"]

theorem C9_copy_dispatch_miss_fatal_witness :
    (copyObject hC9 stC9 0 = some (⟨hC9.cells ++ [readD hC9 0]⟩, 2) ∧
      readD ⟨hC9.cells ++ [readD hC9 0]⟩ 2 = readD hC9 0) ∧
    copyObject hC9 stC9 1 = none :=
  ⟨(C9_copy_dispatch_miss_fatal hC9 stC9 0).1 (by decide),
   (C9_copy_dispatch_miss_fatal hC9 stC9 1).2 (by decide)⟩

/-- When `postCreateRegister` with registration requested returns a
non-null object, that object is the caller-built instance `r` itself —
value-equal to the private copy the registry stored, but a distinct
instance. -/
theorem postCreateRegister_success (h1 : Heap) (st : ContainerState)
    (r : Ref) (h2 : Heap) (st2 : ContainerState) (ro : Ref)
    (hr : r < h1.cells.length) (hhdl : (readD h1 r).handle ≠ "")
    (heq : postCreateRegister h1 st r true true = some (h2, st2, some ro)) :
    ro = r ∧
    ∃ rs, getObjectByHandle st2 (readD h1 r).handle = some rs ∧ rs ≠ ro ∧
      readD h2 rs = readD h2 ro := by
  simp only [postCreateRegister, Bool.not_true, Bool.false_eq_true,
    if_false] at heq
  cases hre : registerObject h1 st (some r) (readD h1 r).handle false true with
  | none =>
      simp only [hre] at heq
      exact Option.noConfusion heq
  | some res =>
      obtain ⟨rh2, rst2, ri⟩ := res
      simp only [hre, Option.some.injEq, Prod.mk.injEq] at heq
      obtain ⟨e1, e2, e3⟩ := heq
      by_cases hri : ri = ID_UNDEFINED
      · rw [if_pos hri] at e3
        exact absurd e3 (by simp)
      · rw [if_neg hri] at e3
        have hro : r = ro := Option.some.inj e3
        subst e1
        subst e2
        subst hro
        have hadd : addObjectToLibrary h1 st r (readD h1 r).handle
            = some (rh2, rst2, ri) := by
          simpa [registerObject, registerObjectFinalize, hhdl] using hre
        obtain ⟨a1, a2, a3, a4, a5, a6, a7, a8, a9⟩ :=
          addObjectToLibrary_success h1 st r (readD h1 r).handle rh2 rst2 ri
            hr hadd
        have hlook : aLook rst2.objectLibrary (readD h1 r).handle
            = some h1.cells.length := by
          rw [a2]
          exact aLook_aSet_self _ _ _
        refine ⟨rfl, h1.cells.length, ?_, Ne.symm (Nat.ne_of_lt hr), ?_⟩
        · simp [getObjectByHandle, checkExists, getObjectInternal, hlook]
        · rw [a5, a4]

/-- C5 (amended): for the create operations, a build failure (failed
default construction, or an unreadable document) yields null with no
registration and no state change; with `register = false` the freshly
built, unregistered instance is returned and the registry is untouched;
with `register = true`, when the call returns a non-null object, that
object is the built instance updated by registration — equal in value to
the private copy stored in the registry under its handle, but a distinct
instance from it. -/
theorem C5_create_pipeline_amended (h : Heap) (st : ContainerState)
    (name fname : String) (build : String → Option ManagedObject)
    (docBuild : String → ManagedObject) (accept : Bool) :
    (build name = none →
      createDefaultObject h st name true build accept = some (h, st, none)) ∧
    (∀ reg, createObjectFromJSONFile h st fname reg false docBuild accept
      = some (h, st, none)) ∧
    (∀ v, build name = some v →
      createDefaultObject h st name false build accept
        = some (⟨h.cells ++ [v]⟩, st, some h.cells.length)) ∧
    (createObjectFromJSONFile h st fname false true docBuild accept
      = some (⟨h.cells ++ [docBuild fname]⟩, st, some h.cells.length)) ∧
    (∀ v h2 st2 ro, build name = some v → v.handle ≠ "" →
      createDefaultObject h st name true build true = some (h2, st2, some ro) →
      ro = h.cells.length ∧
      ∃ rs, getObjectByHandle st2 v.handle = some rs ∧ rs ≠ ro ∧
        readD h2 rs = readD h2 ro) ∧
    (∀ h2 st2 ro, (docBuild fname).handle ≠ "" →
      createObjectFromJSONFile h st fname true true docBuild true
        = some (h2, st2, some ro) →
      ro = h.cells.length ∧
      ∃ rs, getObjectByHandle st2 (docBuild fname).handle = some rs ∧
        rs ≠ ro ∧ readD h2 rs = readD h2 ro) := by
  refine ⟨?_, ?_, ?_, ?_, ?_, ?_⟩
  · intro hb
    simp [createDefaultObject, hb]
  · intro reg
    simp [createObjectFromJSONFile]
  · intro v hb
    simp [createDefaultObject, hb, allocH, postCreateRegister]
  · simp [createObjectFromJSONFile, allocH, postCreateRegister]
  · intro v h2 st2 ro hb hhdl heq
    simp only [createDefaultObject, hb, allocH] at heq
    have hrd : readD (⟨h.cells ++ [v]⟩ : Heap) h.cells.length = v :=
      readD_append_self h v
    have hlen : h.cells.length < (⟨h.cells ++ [v]⟩ : Heap).cells.length := by
      show h.cells.length < (h.cells ++ [v]).length
      rw [List.length_append]
      exact Nat.lt_succ_self _
    obtain ⟨p1, p2⟩ := postCreateRegister_success ⟨h.cells ++ [v]⟩ st
      h.cells.length h2 st2 ro hlen (by rw [hrd]; exact hhdl) heq
    rw [hrd] at p2
    exact ⟨p1, p2⟩
  · intro h2 st2 ro hhdl heq
    simp only [createObjectFromJSONFile, Bool.not_true, Bool.false_eq_true,
      if_false, allocH] at heq
    have hrd : readD (⟨h.cells ++ [docBuild fname]⟩ : Heap) h.cells.length
        = docBuild fname := readD_append_self h _
    have hlen : h.cells.length
        < (⟨h.cells ++ [docBuild fname]⟩ : Heap).cells.length := by
      show h.cells.length < (h.cells ++ [docBuild fname]).length
      rw [List.length_append]
      exact Nat.lt_succ_self _
    obtain ⟨p1, p2⟩ := postCreateRegister_success ⟨h.cells ++ [docBuild fname]⟩
      st h.cells.length h2 st2 ro hlen (by rw [hrd]; exact hhdl) heq
    rw [hrd] at p2
    exact ⟨p1, p2⟩

/-- Concrete fixture for C5. -/
def hC5 : Heap := ⟨[]⟩

def stC5 : ContainerState := initState ["K"]

def buildC5 : String → Option ManagedObject :=
  fun n => some ⟨n, ID_UNDEFINED, "K", 5⟩

def buildFailC5 : String → Option ManagedObject := fun _ => none

def docBuildC5 : String → ManagedObject := fun n => ⟨n, ID_UNDEFINED, "K", 9⟩

def createC5 : Heap × ContainerState × Option Ref :=
  (createDefaultObject hC5 stC5 "a" true buildC5 true).getD (hC5, stC5, none)

/-- On the concrete fixture, `createDefaultObject` with registration
returns instance 0 while the instance stored in the registry under the
handle is 1: the call does not return the instance stored in the
registry, refuting the claim as stated. -/
theorem C5_create_pipeline_counterexample :
    (createDefaultObject hC5 stC5 "a" true buildC5 true).map
      (fun x => (x.2.2, aLook x.2.1.objectLibrary "a"))
      = some (some 0, some 1) ∧ (0 : Ref) ≠ 1 :=
  ⟨by rfl, by decide⟩

theorem C5_create_pipeline_witness :
    createDefaultObject hC5 stC5 "a" true buildFailC5 true
      = some (hC5, stC5, none) ∧
    createObjectFromJSONFile hC5 stC5 "f" true false docBuildC5 true
      = some (hC5, stC5, none) ∧
    (0 : Ref) = hC5.cells.length ∧
    ∃ rs, getObjectByHandle createC5.2.1 "a" = some rs ∧ rs ≠ 0 ∧
      readD createC5.1 rs = readD createC5.1 0 := by
  obtain ⟨c1, c2, _, _, _, _⟩ :=
    C5_create_pipeline_amended hC5 stC5 "a" "f" buildFailC5 docBuildC5 true
  obtain ⟨_, _, _, _, d5, _⟩ :=
    C5_create_pipeline_amended hC5 stC5 "a" "f" buildC5 docBuildC5 true
  obtain ⟨e1, e2⟩ := d5 ⟨"a", ID_UNDEFINED, "K", 5⟩ createC5.1 createC5.2.1 0
    (by rfl) (by decide) (by rfl)
  exact ⟨c1 rfl, c2 true, e1, e2⟩

/-- C10: registering over an already-registered handle assigns the ID of
the existing entry (no new ID is taken from the pool, which is unchanged),
leaves the whole ID-to-handle map — in particular the entry for that ID —
unchanged, and replaces the stored object under the handle with a fresh
private copy of the newly registered value. -/
theorem C10_id_stability_on_overwrite (h : Heap) (st : ContainerState)
    (r rh : Ref) (hdl : String) (force : Bool) (h2 : Heap)
    (st2 : ContainerState) (i : Int)
    (hr : r < h.cells.length) (hhdl : hdl ≠ "") (hrh : rh ≠ r)
    (hrhlt : rh < h.cells.length)
    (hlive : aLook st.objectLibrary hdl = some rh)
    (hidm : aLook st.objectLibKeyByID (readD h rh).objId = some hdl)
    (hreg : registerObject h st (some r) hdl force true = some (h2, st2, i)) :
    i = (readD h rh).objId ∧
    st2.objectLibKeyByID = st.objectLibKeyByID ∧
    st2.availableObjectIDs = st.availableObjectIDs ∧
    ∃ rs, aLook st2.objectLibrary hdl = some rs ∧ rs ≠ rh ∧ rs ≠ r ∧
      readD h2 rs = { readD h r with handle := hdl, objId := i } := by
  have hadd : addObjectToLibrary h st r hdl = some (h2, st2, i) := by
    simpa [registerObject, registerObjectFinalize, hhdl] using hreg
  have haddKeep := hadd
  rcases hgid : getObjectIDByHandleOrNew
      (writeH h r { readD h r with handle := hdl }) st hdl true with ⟨st1, oid⟩
  have hst1 : st1 = st ∧ oid = (readD h rh).objId := by
    unfold getObjectIDByHandleOrNew getObjectInternal at hgid
    rw [hlive] at hgid
    simp only [Prod.mk.injEq] at hgid
    obtain ⟨g1, g2⟩ := hgid
    refine ⟨g1.symm, ?_⟩
    rw [← g2, readD_writeH_ne h r rh _ (Ne.symm hrh)]
  obtain ⟨hst1, hoid⟩ := hst1
  simp only [addObjectToLibrary, hgid] at hadd
  cases hcopy : copyObject
      (writeH (writeH h r { readD h r with handle := hdl }) r
        { readD (writeH h r { readD h r with handle := hdl }) r with
          objId := oid }) st1 r with
  | none =>
      rw [hcopy] at hadd
      exact Option.noConfusion hadd
  | some pr =>
      obtain ⟨h3, copyRef⟩ := pr
      rw [hcopy] at hadd
      simp only [Option.some.injEq, Prod.mk.injEq] at hadd
      obtain ⟨hh2, hst2, hi⟩ := hadd
      have hid2 : st2.objectLibKeyByID = aEmplace st.objectLibKeyByID oid hdl := by
        rw [← hst2, hst1]
      have hpool2 : st2.availableObjectIDs = st.availableObjectIDs := by
        rw [← hst2, hst1]
      obtain ⟨a1, a2, a3, a4, a5, a6, a7, a8, a9⟩ :=
        addObjectToLibrary_success h st r hdl h2 st2 i hr haddKeep
      refine ⟨?_, ?_, hpool2, h.cells.length, ?_, ?_, ?_, a5⟩
      · rw [← hi, hoid]
      · rw [hid2, hoid]
        exact aEmplace_of_some _ _ hdl hdl hidm
      · rw [a2]
        exact aLook_aSet_self _ hdl _
      · exact Ne.symm (Nat.ne_of_lt hrhlt)
      · exact Ne.symm (Nat.ne_of_lt hr)

/-- Concrete fixture for C10: handle a is registered with ID 0 at
instance 0; instance 1 is a caller-built replacement. -/
def hC10 : Heap := ⟨[⟨"a", 0, "K", 1⟩, ⟨"n", ID_UNDEFINED, "K", 9⟩]⟩

def stC10 : ContainerState :=
  ⟨[("a", 0)], [(0, "a")], [], [], [], ["K"], none⟩

def regC10 : Heap × ContainerState × Int :=
  (registerObject hC10 stC10 (some 1) "a" false true).getD
    (hC10, stC10, ID_UNDEFINED)

theorem C10_id_stability_on_overwrite_witness :
    regC10.2.2 = (readD hC10 0).objId ∧
    regC10.2.1.objectLibKeyByID = stC10.objectLibKeyByID ∧
    regC10.2.1.availableObjectIDs = stC10.availableObjectIDs ∧
    ∃ rs, aLook regC10.2.1.objectLibrary "a" = some rs ∧ rs ≠ 0 ∧ rs ≠ 1 ∧
      readD regC10.1 rs
        = { readD hC10 1 with handle := "a", objId := regC10.2.2 } :=
  C10_id_stability_on_overwrite hC10 stC10 1 0 "a" false regC10.1 regC10.2.1
    regC10.2.2 (by decide) (by decide) (by decide) (by decide) (by rfl)
    (by rfl) (by rfl)

/-- A successful removal pushes the removed object's ID into the pool of
available IDs. -/
theorem removeObjectInternal_freesID (h : Heap) (st : ContainerState)
    (k : String) (h' : Heap) (st' : ContainerState) (r : Ref)
    (heq : removeObjectInternal h st k = (h', st', some r)) :
    (readD h r).objId ∈ st'.availableObjectIDs := by
  unfold removeObjectInternal at heq
  by_cases hex : checkExists st k
  · simp only [hex, Bool.not_true, Bool.false_eq_true, if_false] at heq
    by_cases hp : k ∈ st.undeletableObjectNames ∨ k ∈ st.userLockedObjectNames
    · rw [if_pos (by simpa using hp)] at heq
      simp only [Prod.mk.injEq] at heq
      exact absurd heq.2.2 (by simp)
    · rw [if_neg (by simpa using hp)] at heq
      cases hget : getObjectInternal st k with
      | none =>
          rw [hget] at heq
          simp only [Prod.mk.injEq] at heq
          exact absurd heq.2.2 (by simp)
      | some r0 =>
          rw [hget] at heq
          simp only [Prod.mk.injEq, Option.some.injEq] at heq
          obtain ⟨_, e2, e3⟩ := heq
          rw [← e3, ← e2]
          exact List.mem_cons_self _ _
  · simp only [hex, Bool.not_false, if_true, Prod.mk.injEq] at heq
    exact absurd heq.2.2 (by simp)

/-- C8: no assigned ID is ever negative in a reachable state (only the
`ID_UNDEFINED` sentinel is); removal returns the removed object's ID to
the free pool; allocation for an unregistered handle takes the smallest
pooled ID, falling back to maximum-used-plus-one when the pool is empty;
and a successful registration of a new handle is assigned exactly that
smallest pooled ID. -/
theorem C8_id_allocation_reuse :
    (∀ ops ctorKeys h st,
      runOps ⟨[]⟩ (initState ctorKeys) ops = some (h, st) →
      (∀ k r, aLook st.objectLibrary k = some r → 0 ≤ (readD h r).objId) ∧
      (∀ i k, aLook st.objectLibKeyByID i = some k → 0 ≤ i)) ∧
    (∀ h st k h' st' r, removeObjectByHandle h st k = (h', st', some r) →
      (readD h r).objId ∈ st'.availableObjectIDs) ∧
    (∀ (h1 : Heap) (st : ContainerState) (hdl : String) (m : Int),
      aLook st.objectLibrary hdl = none →
      minOfList st.availableObjectIDs = some m →
      (getObjectIDByHandleOrNew h1 st hdl true).2 = m ∧
      (∀ x ∈ st.availableObjectIDs, m ≤ x)) ∧
    (∀ (h1 : Heap) (st : ContainerState) (hdl : String),
      aLook st.objectLibrary hdl = none →
      st.availableObjectIDs = [] →
      (getObjectIDByHandleOrNew h1 st hdl true).2 = maxUsedID st + 1) ∧
    (∀ (h : Heap) (st : ContainerState) (r : Ref) (hdl : String)
        (force : Bool) (h2 : Heap) (st2 : ContainerState) (i m : Int),
      hdl ≠ "" → aLook st.objectLibrary hdl = none →
      minOfList st.availableObjectIDs = some m →
      registerObject h st (some r) hdl force true = some (h2, st2, i) →
      i = m) := by
  refine ⟨?_, ?_, ?_, ?_, ?_⟩
  · intro ops ctorKeys h st hrun
    have hInv := runOps_inv ops ⟨[]⟩ (initState ctorKeys)
      (RegInv_init ctorKeys ⟨[]⟩) h st hrun
    exact ⟨fun k r hk => hInv.idsNonneg _ k (hInv.agree k r hk),
      hInv.idsNonneg⟩
  · intro h st k h' st' r heq
    exact removeObjectInternal_freesID h st k h' st' r heq
  · intro h1 st hdl m hnone hmin
    refine ⟨?_, minOfList_le _ m hmin⟩
    unfold getObjectIDByHandleOrNew getObjectInternal getUnusedObjectID
    rw [hnone, hmin]
    rfl
  · intro h1 st hdl hnone hpool
    unfold getObjectIDByHandleOrNew getObjectInternal getUnusedObjectID
    rw [hnone, hpool]
    rfl
  · intro h st r hdl force h2 st2 i m hhdl hnone hmin hreg
    have hadd : addObjectToLibrary h st r hdl = some (h2, st2, i) := by
      simpa [registerObject, registerObjectFinalize, hhdl] using hreg
    rcases hgid : getObjectIDByHandleOrNew
        (writeH h r { readD h r with handle := hdl }) st hdl true with ⟨st1, oid⟩
    have hoid : oid = m := by
      unfold getObjectIDByHandleOrNew getObjectInternal getUnusedObjectID
        at hgid
      rw [hnone, hmin] at hgid
      simp only [if_true, Prod.mk.injEq] at hgid
      exact hgid.2.symm
    simp only [addObjectToLibrary, hgid] at hadd
    cases hcopy : copyObject
        (writeH (writeH h r { readD h r with handle := hdl }) r
          { readD (writeH h r { readD h r with handle := hdl }) r with
            objId := oid }) st1 r with
    | none =>
        rw [hcopy] at hadd
        exact Option.noConfusion hadd
    | some pr =>
        obtain ⟨h3, copyRef⟩ := pr
        rw [hcopy] at hadd
        simp only [Option.some.injEq, Prod.mk.injEq] at hadd
        rw [← hadd.2.2, hoid]

/-- Concrete fixtures for C8: a run that removes handle a and reuses its
ID, a state with a populated free pool, and a state with an empty pool. -/
def opsC8 : List Op :=
  [Op.register (some ⟨"a", ID_UNDEFINED, "K", 1⟩) "a" false true,
   Op.register (some ⟨"b", ID_UNDEFINED, "K", 2⟩) "b" false true,
   Op.removeByHandle "a"]

def resC8 : Heap × ContainerState :=
  (runOps ⟨[]⟩ (initState ["K"]) opsC8).getD (⟨[]⟩, initState ["K"])

def hRemC8 : Heap := ⟨[⟨"a", 0, "K", 1⟩]⟩

def stRemC8 : ContainerState :=
  ⟨[("a", 0)], [(0, "a")], [], [], [], ["K"], none⟩

def remC8 : Heap × ContainerState × Option Ref :=
  removeObjectByHandle hRemC8 stRemC8 "a"

def stPoolC8 : ContainerState := ⟨[], [], [1, 0, 2], [], [], ["K"], none⟩

def stEmptyPoolC8 : ContainerState :=
  ⟨[("a", 0)], [(0, "a")], [], [], [], ["K"], none⟩

def hRegC8 : Heap := ⟨[⟨"b", ID_UNDEFINED, "K", 7⟩]⟩

def regC8 : Heap × ContainerState × Int :=
  (registerObject hRegC8 stPoolC8 (some 0) "b" false true).getD
    (hRegC8, stPoolC8, ID_UNDEFINED)

theorem C8_id_allocation_reuse_witness :
    ((∀ k r, aLook resC8.2.objectLibrary k = some r →
        0 ≤ (readD resC8.1 r).objId) ∧
      (∀ i k, aLook resC8.2.objectLibKeyByID i = some k → 0 ≤ i)) ∧
    (readD hRemC8 0).objId ∈ remC8.2.1.availableObjectIDs ∧
    ((getObjectIDByHandleOrNew hRemC8 stPoolC8 "c" true).2 = 0 ∧
      (∀ x ∈ stPoolC8.availableObjectIDs, (0 : Int) ≤ x)) ∧
    (getObjectIDByHandleOrNew hRemC8 stEmptyPoolC8 "c" true).2
      = maxUsedID stEmptyPoolC8 + 1 ∧
    regC8.2.2 = 0 := by
  obtain ⟨w1, w2, w3, w4, w5⟩ := C8_id_allocation_reuse
  refine ⟨w1 opsC8 ["K"] resC8.1 resC8.2 (by rfl),
    w2 hRemC8 stRemC8 "a" remC8.1 remC8.2.1 0 (by rfl),
    w3 hRemC8 stPoolC8 "c" 0 (by rfl) (by rfl),
    w4 hRemC8 stEmptyPoolC8 "c" (by rfl) (by rfl),
    w5 hRegC8 stPoolC8 0 "b" false regC8.1 regC8.2.1 regC8.2.2 0
      (by decide) (by rfl) (by rfl) (by rfl)⟩

/-- Under unique keys, looking up the key of a stored entry returns its
value. -/
theorem aLook_self_of_nodup {α β : Type} [DecidableEq α]
    (l : List (α × β)) (hl : (keysOf l).Nodup) :
    ∀ p ∈ l, aLook l p.1 = some p.2 := by
  induction l with
  | nil => simp
  | cons q rest ih =>
      obtain ⟨qk, qv⟩ := q
      simp only [keysOf, List.map_cons, List.nodup_cons] at hl
      intro p hp
      rcases List.mem_cons.mp hp with hp | hp
      · subst hp
        simp [aLook]
      · have hne : qk ≠ p.1 := by
          intro hc
          exact hl.1 (hc ▸ List.mem_map.mpr ⟨p, hp, rfl⟩)
        simp only [aLook, hne, if_false]
        exact ih hl.2 p hp

/-- Under unique keys, erasing a key is filtering it out. -/
theorem aErase_eq_filter {α β : Type} [DecidableEq α] [BEq α] [LawfulBEq α]
    (l : List (α × β)) (k : α) (hl : (keysOf l).Nodup) :
    aErase l k = l.filter (fun p => !(p.1 == k)) := by
  induction l with
  | nil => simp [aErase]
  | cons q rest ih =>
      obtain ⟨qk, qv⟩ := q
      simp only [keysOf, List.map_cons, List.nodup_cons] at hl
      by_cases hqk : qk = k
      · subst hqk
        have he : aErase ((qk, qv) :: rest) qk = rest := by simp [aErase]
        rw [he, List.filter_cons, if_neg (by simp)]
        symm
        rw [List.filter_eq_self]
        intro p hp
        have hne : p.1 ≠ qk := by
          intro hc
          exact hl.1 (hc ▸ List.mem_map.mpr ⟨p, hp, rfl⟩)
        simp [hne]
      · have he : aErase ((qk, qv) :: rest) k = (qk, qv) :: aErase rest k := by
          simp [aErase, hqk]
        rw [he, List.filter_cons, if_pos (by simp [hqk]), ih hl.2]

/-- Protected entries are skipped, live unprotected entries contribute
their stored value: the removal loop output as filter and map. -/
theorem filterMap_if_snd (l : List (String × Ref)) (P : String → Bool)
    (g : String → Option Ref) (hg : ∀ p ∈ l, g p.1 = some p.2) :
    l.filterMap (fun p => if P p.1 then none else g p.1)
      = (l.filter (fun p => !P p.1)).map Prod.snd := by
  induction l with
  | nil => simp
  | cons p rest ih =>
      have hgp := hg p (List.mem_cons_self p rest)
      have hrest : ∀ q ∈ rest, g q.1 = some q.2 :=
        fun q hq => hg q (List.mem_cons_of_mem p hq)
      by_cases hP : P p.1
      · simp only [List.filterMap_cons, List.filter_cons, hP, if_true,
          Bool.not_true, Bool.false_eq_true, if_false]
        exact ih hrest
      · have hPf : P p.1 = false := by simpa using hP
        simp only [List.filterMap_cons, List.filter_cons, hPf,
          Bool.false_eq_true, if_false, Bool.not_false, if_true, hgp,
          List.map_cons]
        rw [ih hrest]

/-- `removeObjectInternal` on a protected handle is a no-op. -/
theorem removeObjectInternal_protected (h : Heap) (st : ContainerState)
    (k : String)
    (hp : (st.undeletableObjectNames.contains k
      || st.userLockedObjectNames.contains k) = true) :
    removeObjectInternal h st k = (h, st, none) := by
  unfold removeObjectInternal
  by_cases hex : checkExists st k
  · simp only [hex, Bool.not_true, Bool.false_eq_true, if_false]
    rw [if_pos (by simpa using hp)]
  · simp [hex]

/-- `removeObjectInternal` on an unknown handle is a no-op. -/
theorem removeObjectInternal_notfound (h : Heap) (st : ContainerState)
    (k : String) (hk : aLook st.objectLibrary k = none) :
    removeObjectInternal h st k = (h, st, none) := by
  unfold removeObjectInternal
  have hex : checkExists st k = false := by
    simp [checkExists, hk]
  simp [hex]

/-- `removeObjectInternal` on a live unprotected handle deletes it. -/
theorem removeObjectInternal_live (h : Heap) (st : ContainerState)
    (k : String) (r : Ref) (hk : aLook st.objectLibrary k = some r)
    (hp : (st.undeletableObjectNames.contains k
      || st.userLockedObjectNames.contains k) = false) :
    removeObjectInternal h st k
      = (h, deleteObjectInternal st (readD h r).objId k, some r) := by
  unfold removeObjectInternal
  have hex : checkExists st k = true := by
    simp [checkExists, hk]
  simp only [hex, Bool.not_true, Bool.false_eq_true, if_false]
  rw [if_neg (by simpa using hp)]
  simp [getObjectInternal, hk]

/-- Behaviour of the removal loop on a list of distinct candidate
handles: the library keeps exactly the entries whose handle is not an
unprotected candidate, and the returned instances are exactly the live,
unprotected candidates in candidate order. -/
theorem removeLoop_spec (hs : List String) :
    ∀ (h : Heap) (st : ContainerState),
    (keysOf st.objectLibrary).Nodup → hs.Nodup →
    (removeLoop h st hs).2.1.objectLibrary
      = st.objectLibrary.filter
          (fun p => !(hs.contains p.1
            && !(st.undeletableObjectNames.contains p.1
                 || st.userLockedObjectNames.contains p.1))) ∧
    (removeLoop h st hs).2.2
      = hs.filterMap (fun k =>
          if st.undeletableObjectNames.contains k
             || st.userLockedObjectNames.contains k then none
          else aLook st.objectLibrary k) := by
  induction hs with
  | nil =>
      intro h st hnd hhs
      simp [removeLoop]
  | cons hd rest ih =>
      intro h st hnd hhs
      have hrestnd : rest.Nodup := (List.nodup_cons.mp hhs).2
      have hhdnotin : hd ∉ rest := (List.nodup_cons.mp hhs).1
      by_cases hprot : (st.undeletableObjectNames.contains hd
          || st.userLockedObjectNames.contains hd) = true
      · have hstep := removeObjectInternal_protected h st hd hprot
        obtain ⟨ih1, ih2⟩ := ih h st hnd hrestnd
        constructor
        · simp only [removeLoop, hstep]
          rw [ih1]
          refine List.filter_congr ?_
          intro p hp
          by_cases hph : p.1 = hd
          · rw [hph, hprot]
            simp
          · simp [List.contains_cons, hph]
        · simp only [removeLoop, hstep]
          rw [ih2, List.filterMap_cons, hprot]
          simp
      · have hpf : (st.undeletableObjectNames.contains hd
            || st.userLockedObjectNames.contains hd) = false := by
          simpa using hprot
        cases hlook : aLook st.objectLibrary hd with
        | none =>
            have hstep := removeObjectInternal_notfound h st hd hlook
            obtain ⟨ih1, ih2⟩ := ih h st hnd hrestnd
            have hnotin : ∀ p ∈ st.objectLibrary, p.1 ≠ hd := by
              intro p hp hc
              exact (not_mem_keysOf_of_aLook_none _ _ hlook)
                (hc ▸ List.mem_map.mpr ⟨p, hp, rfl⟩)
            constructor
            · simp only [removeLoop, hstep]
              rw [ih1]
              refine List.filter_congr ?_
              intro p hp
              simp [List.contains_cons, hnotin p hp]
            · simp only [removeLoop, hstep]
              rw [ih2, List.filterMap_cons, hpf]
              simp [hlook]
        | some r =>
            have hstep := removeObjectInternal_live h st hd r hlook hpf
            have hnd' :
                (keysOf ((deleteObjectInternal st
                  (readD h r).objId hd).objectLibrary)).Nodup := by
              show (keysOf (aErase st.objectLibrary hd)).Nodup
              exact keysOf_aErase_nodup _ _ hnd
            obtain ⟨ih1, ih2⟩ := ih h
              (deleteObjectInternal st (readD h r).objId hd) hnd' hrestnd
            have hu : (deleteObjectInternal st
                (readD h r).objId hd).undeletableObjectNames
                = st.undeletableObjectNames := rfl
            have hlk : (deleteObjectInternal st
                (readD h r).objId hd).userLockedObjectNames
                = st.userLockedObjectNames := rfl
            have hlib : (deleteObjectInternal st
                (readD h r).objId hd).objectLibrary
                = aErase st.objectLibrary hd := rfl
            rw [hu, hlk, hlib] at ih1
            rw [hu, hlk, hlib] at ih2
            constructor
            · simp only [removeLoop, hstep]
              rw [ih1, aErase_eq_filter _ _ hnd, List.filter_filter]
              refine List.filter_congr ?_
              intro p hp
              by_cases hph : p.1 = hd
              · rw [hph, hpf]
                simp
              · simp [List.contains_cons, hph]
            · simp only [removeLoop, hstep]
              rw [ih2, List.filterMap_cons]
              have hcongr : rest.filterMap (fun k =>
                  if st.undeletableObjectNames.contains k
                     || st.userLockedObjectNames.contains k then none
                  else aLook (aErase st.objectLibrary hd) k)
                = rest.filterMap (fun k =>
                  if st.undeletableObjectNames.contains k
                     || st.userLockedObjectNames.contains k then none
                  else aLook st.objectLibrary k) := by
                refine List.filterMap_congr ?_
                intro k hk
                have hkne : k ≠ hd := fun hc => hhdnotin (hc ▸ hk)
                rw [aLook_aErase_ne _ _ _ hkne]
              rw [hcongr, hpf]
              simp [hlook]

theorem occursIn_nil (l : List Char) : occursIn [] l = true := by
  cases l <;> simp [occursIn, headMatch]

/-- The empty substring occurs in every string. -/
theorem strContains_empty (s : String) : strContains s "" = true :=
  occursIn_nil s.data

/-- The library after substring removal: exactly the entries that are not
unprotected matches survive. -/
theorem removeObjectsBySubstring_lib (h : Heap) (st : ContainerState)
    (s : String) (c : Bool) (hnd : (keysOf st.objectLibrary).Nodup) :
    (removeObjectsBySubstring h st s c).2.1.objectLibrary
      = st.objectLibrary.filter
          (fun p => !(strContains p.1 s == c
            && !(st.undeletableObjectNames.contains p.1
                 || st.userLockedObjectNames.contains p.1))) := by
  have hq : getObjectHandlesBySubstring st s c
      = (keysOf st.objectLibrary).filter (fun hd => strContains hd s == c) :=
    rfl
  have hsnd : (getObjectHandlesBySubstring st s c).Nodup := by
    rw [hq]
    exact List.Nodup.filter _ hnd
  obtain ⟨L1, _⟩ := removeLoop_spec (getObjectHandlesBySubstring st s c)
    h st hnd hsnd
  show (removeLoop h st (getObjectHandlesBySubstring st s c)).2.1.objectLibrary
      = _
  rw [L1]
  refine List.filter_congr ?_
  intro p hp
  have hmem : p.1 ∈ keysOf st.objectLibrary := List.mem_map.mpr ⟨p, hp, rfl⟩
  by_cases hm : (strContains p.1 s == c) = true
  · have hin : p.1 ∈ getObjectHandlesBySubstring st s c := by
      rw [hq]
      exact List.mem_filter.mpr ⟨hmem, hm⟩
    simp [hin, hm]
  · have hmf : (strContains p.1 s == c) = false := by simpa using hm
    have hout : p.1 ∉ getObjectHandlesBySubstring st s c := by
      rw [hq]
      intro hcon
      exact hm (List.mem_filter.mp hcon).2
    simp [hout, hmf]

/-- The instances returned by substring removal: exactly the stored
values of the unprotected matching entries. -/
theorem removeObjectsBySubstring_removed (h : Heap) (st : ContainerState)
    (s : String) (c : Bool) (hnd : (keysOf st.objectLibrary).Nodup) :
    (removeObjectsBySubstring h st s c).2.2
      = (st.objectLibrary.filter
          (fun p => strContains p.1 s == c
            && !(st.undeletableObjectNames.contains p.1
                 || st.userLockedObjectNames.contains p.1))).map Prod.snd := by
  have hq : getObjectHandlesBySubstring st s c
      = (keysOf st.objectLibrary).filter (fun hd => strContains hd s == c) :=
    rfl
  have hsnd : (getObjectHandlesBySubstring st s c).Nodup := by
    rw [hq]
    exact List.Nodup.filter _ hnd
  obtain ⟨_, L2⟩ := removeLoop_spec (getObjectHandlesBySubstring st s c)
    h st hnd hsnd
  show (removeLoop h st (getObjectHandlesBySubstring st s c)).2.2 = _
  rw [L2]
  have hsmap : getObjectHandlesBySubstring st s c
      = List.map Prod.fst (st.objectLibrary.filter
          (fun p => strContains p.1 s == c)) := by
    rw [hq]
    exact List.filter_map Prod.fst st.objectLibrary
  rw [hsmap, List.filterMap_map]
  have hcomp : ((fun k =>
      if st.undeletableObjectNames.contains k
         || st.userLockedObjectNames.contains k then none
      else aLook st.objectLibrary k) ∘ Prod.fst)
      = (fun p : String × Ref =>
        if st.undeletableObjectNames.contains p.1
           || st.userLockedObjectNames.contains p.1 then none
        else aLook st.objectLibrary p.1) := rfl
  rw [hcomp]
  have happ := filterMap_if_snd
    (st.objectLibrary.filter (fun p => strContains p.1 s == c))
    (fun k => st.undeletableObjectNames.contains k
      || st.userLockedObjectNames.contains k)
    (aLook st.objectLibrary)
    (fun p hp => aLook_self_of_nodup _ hnd p (List.mem_filter.mp hp).1)
  rw [happ, List.filter_filter]
  refine congrArg (List.map Prod.snd) (List.filter_congr ?_)
  intro p hp
  exact Bool.and_comm _ _

/-- C7: `removeObjectsBySubstring` removes exactly the registered,
unprotected handles matching the query (containing the substring when
`contains` is true, not containing it when false), returns exactly the
removed instances, and skips protected entries silently;
`removeAllObjects` equals `removeObjectsBySubstring "" true` and leaves
only protected entries behind. -/
theorem C7_substring_removal (h : Heap) (st : ContainerState) (s : String)
    (c : Bool) (hnd : (keysOf st.objectLibrary).Nodup) :
    (removeObjectsBySubstring h st s c).2.1.objectLibrary
      = st.objectLibrary.filter
          (fun p => !(strContains p.1 s == c
            && !(st.undeletableObjectNames.contains p.1
                 || st.userLockedObjectNames.contains p.1))) ∧
    (removeObjectsBySubstring h st s c).2.2
      = (st.objectLibrary.filter
          (fun p => strContains p.1 s == c
            && !(st.undeletableObjectNames.contains p.1
                 || st.userLockedObjectNames.contains p.1))).map Prod.snd ∧
    removeAllObjects h st = removeObjectsBySubstring h st "" true ∧
    (∀ p ∈ (removeAllObjects h st).2.1.objectLibrary,
      (st.undeletableObjectNames.contains p.1
        || st.userLockedObjectNames.contains p.1) = true) := by
  refine ⟨removeObjectsBySubstring_lib h st s c hnd,
    removeObjectsBySubstring_removed h st s c hnd, rfl, ?_⟩
  intro p hp
  have hp2 : p ∈ (removeObjectsBySubstring h st "" true).2.1.objectLibrary :=
    hp
  rw [removeObjectsBySubstring_lib h st "" true hnd] at hp2
  have hpred := (List.mem_filter.mp hp2).2
  simpa [strContains_empty] using hpred

/-- Concrete fixture for C7: the spec example handles chair_1, chair_2,
table_1. -/
def hC7 : Heap :=
  ⟨[⟨"chair_1", 0, "K", 1⟩, ⟨"chair_2", 1, "K", 2⟩, ⟨"table_1", 2, "K", 3⟩]⟩

def stC7 : ContainerState :=
  ⟨[("chair_1", 0), ("chair_2", 1), ("table_1", 2)],
   [(0, "chair_1"), (1, "chair_2"), (2, "table_1")], [], [], [], ["K"], none⟩

theorem C7_substring_removal_witness :
    (removeObjectsBySubstring hC7 stC7 "chair" true).2.1.objectLibrary
      = stC7.objectLibrary.filter
          (fun p => !(strContains p.1 "chair" == true
            && !(stC7.undeletableObjectNames.contains p.1
                 || stC7.userLockedObjectNames.contains p.1))) ∧
    (removeObjectsBySubstring hC7 stC7 "chair" true).2.2
      = (stC7.objectLibrary.filter
          (fun p => strContains p.1 "chair" == true
            && !(stC7.undeletableObjectNames.contains p.1
                 || stC7.userLockedObjectNames.contains p.1))).map Prod.snd ∧
    removeAllObjects hC7 stC7 = removeObjectsBySubstring hC7 stC7 "" true ∧
    (∀ p ∈ (removeAllObjects hC7 stC7).2.1.objectLibrary,
      (stC7.undeletableObjectNames.contains p.1
        || stC7.userLockedObjectNames.contains p.1) = true) :=
  C7_substring_removal hC7 stC7 "chair" true (by decide)

/-- Sanity check: on the spec example, removing by substring chair with
`contains = true` removes exactly the two chair instances (in index
order) and keeps only table_1; with `contains = false` it removes only
the table instance. -/
example :
    (removeObjectsBySubstring hC7 stC7 "chair" true).2.2 = [0, 1] ∧
    (removeObjectsBySubstring hC7 stC7 "chair" true).2.1.objectLibrary
      = [("table_1", 2)] ∧
    (removeObjectsBySubstring hC7 stC7 "chair" false).2.2 = [2] ∧
    (removeObjectsBySubstring hC7 stC7 "chair" false).2.1.objectLibrary
      = [("chair_1", 0), ("chair_2", 1)] := by
  refine ⟨?_, ?_, ?_, ?_⟩ <;> rfl
